import Mathlib

/-!
Verification development for the MatkulFinder course recommendation and
planning engine (src/model/course_recommender.py and
src/model/smart_course_planner.py), shallowly embedded in Lean.

Modelling conventions:
* Python strings are Lean `String`; the substring test `a in b` is `pyIn`.
* Python `str.lower()` maps `Char.toLower` over the characters (the
  repository data is ASCII, where the two agree).
* A missing `course_code` (Python `None` or `""`, both falsy) is modelled as
  `""`; optional numeric fields are `Option Int`.
* Python dicts used as keyed tables are insertion-ordered association lists;
  `frozenset`s of course codes are canonical (sorted, duplicate-free) lists
  of strings, so Lean equality coincides with Python set equality.
* Python `sorted`/`list.sort` are stable; `isortBy` below is a stable
  insertion sort, which agrees with any stable sort for a total preorder.
-/

/-- Character-list matching of a needle against the front of a haystack. -/
def leadMatch : List Char → List Char → Bool
  | [], _ => true
  | _ :: _, [] => false
  | a :: as, b :: bs => a == b && leadMatch as bs

/-- Substring occurrence test on character lists. -/
def subMatch (needle : List Char) : List Char → Bool
  | [] => leadMatch needle []
  | b :: bs => leadMatch needle (b :: bs) || subMatch needle bs

/-- Python `needle in hay` on strings (substring containment). -/
def pyIn (needle hay : String) : Bool := subMatch needle.toList hay.toList

/-- Lexicographic comparison of character lists by code point, matching
Python string comparison; structurally recursive so it evaluates. -/
def charListLe : List Char → List Char → Bool
  | [], _ => true
  | _ :: _, [] => false
  | a :: as, b :: bs => if a = b then charListLe as bs else decide (a < b)

/-- Python `a <= b` on strings (lexicographic by code point). -/
def strLe (a b : String) : Bool := charListLe a.toList b.toList

/-- Python `s.lower()` (ASCII case folding, as in the repository data);
written over the character list so that it reduces by kernel evaluation. -/
def pyLower (s : String) : String := String.mk (s.toList.map Char.toLower)

/-- Python `s.strip()`: drop leading and trailing whitespace. -/
def pyStrip (s : String) : String :=
  String.mk (((s.toList.dropWhile Char.isWhitespace).reverse.dropWhile
    Char.isWhitespace).reverse)

/-- Stable insertion of an element into a sorted list: the new element goes
before the first existing element it is `le`-related to, which keeps equal
elements in their original relative order. -/
def insSorted (le : α → α → Bool) (a : α) : List α → List α
  | [] => [a]
  | b :: bs => if le a b then a :: b :: bs else b :: insSorted le a bs

/-- Stable insertion sort; agrees with Python `sorted` for a total preorder
`le` because both are stable. -/
def isortBy (le : α → α → Bool) : List α → List α
  | [] => []
  | a :: as => insSorted le a (isortBy le as)

/-- Insertion-ordered dictionary update: replace the value at an existing
key in place, otherwise append; this is exactly how Python dict assignment
behaves with respect to iteration order. -/
def insertAssoc [BEq κ] (d : List (κ × ν)) (k : κ) (v : ν) : List (κ × ν) :=
  if d.any (fun p => p.1 == k) then
    d.map (fun p => if p.1 == k then (k, v) else p)
  else d ++ [(k, v)]

/-- Dictionary lookup (`dict.get`). -/
def lookupAssoc [BEq κ] (d : List (κ × ν)) (k : κ) : Option ν :=
  (d.find? (fun p => p.1 == k)).map (fun p => p.2)

/-- Course record, after JSON loading (src/model/course_recommender.py).
A missing or falsy `course_code` is modelled as `""`; `sks` and `type` keep
their optionality (`course.get(...)` returning `None`). -/
structure Course where
  course_code : String := ""
  course_name_id : String := ""
  course_name_en : String := ""
  sks : Option Int := none
  type : Option String := none
  topics : List String := []
  semesters : List Int := []
deriving DecidableEq, Repr

/-- Prerequisite entry: one element of a rule list, `{"code": ..,
"is_corequisite": ..}`. -/
structure Prereq where
  code : String
  is_corequisite : Bool := false
deriving DecidableEq, Repr

/-- Prerequisite table: course code to its prerequisites list.  A rule dict
whose `prerequisites` key is missing or `None` behaves as `[]` in the source
(`entry.get("prerequisites", []) or []`), so the entry is modelled as the
list itself. -/
def PrereqRules := List (String × List Prereq)

/-- Python `int(course.get("sks") or 0)`: `None` and `0` both give `0`. -/
def pySks (c : Course) : Int := c.sks.getD 0

/-- The career to keyword map from CourseRecommender.__init__ (insertion
order preserved). -/
def careerKeywordMap : List (String × List String) :=
  [("data scientist", ["data", "machine learning", "statist", "data mining", "sistem cerdas"]),
   ("machine learning engineer", ["machine learning", "deep learning", "ml"]),
   ("software engineer", ["program", "software", "object oriented", "oop"]),
   ("ai engineer", ["artificial", "intelligence", "ai", "deep learning"]),
   ("web developer", ["web", "html", "css", "javascript", "backend", "frontend"]),
   ("network engineer", ["network", "jaringan"]),
   ("cyber security", ["security", "keamanan", "kriptografi"]),
   ("business", ["business", "bisnis", "startup", "entrepreneur", "wirausaha", "marketing", "pemasaran", "manajemen", "management", "finance", "keuangan", "proposal", "rencana bisnis", "budget", "operational", "operation", "ethic", "etika"]),
   ("business analyst", ["business", "bisnis", "analyst", "analisis", "data", "requirement", "kebutuhan", "process", "proses", "kpi"]),
   ("product manager", ["product", "produk", "ui", "ux", "user", "requirement", "roadmap", "design thinking"]),
   ("project manager", ["project", "proyek", "manajemen proyek", "scheduling", "estimasi", "risk", "resiko", "anggaran", "budget"]),
   ("data engineer", ["data pipeline", "data warehouse", "big data", "spark", "hadoop", "stream", "kafka", "etl"]),
   ("cloud engineer", ["cloud", "aws", "azure", "gcp", "microservice", "docker", "kubernetes", "devops"]),
   ("devops engineer", ["devops engineer", "ci/cd", "kubernetes", "docker", "monitoring", "orchestration", "scalable", "scalability"]),
   ("mobile developer", ["mobile developer", "android", "ios", "kotlin", "swift", "react native", "flutter"]),
   ("game developer", ["game developer", "grafika", "graphics", "unity", "unreal", "3d", "animasi"]),
   ("blockchain developer", ["blockchain developer", "smart contract", "ethereum", "bitcoin", "cryptography", "kriptografi"]),
   ("database administrator", ["database", "sql", "normalisasi", "query", "optimisasi", "index"]),
   ("frontend developer", ["frontend", "react", "vue", "css", "javascript", "ui"]),
   ("backend developer", ["backend", "api", "rest", "microservice", "database", "server"]),
   ("full stack developer", ["frontend", "backend", "full stack", "web"]),
   ("ui/ux designer", ["ui", "ux", "user experience", "user interface", "design"]),
   ("qa engineer", ["quality", "testing", "unit test", "automation", "assurance"]),
   ("security analyst", ["security", "keamanan", "network", "forensik", "audit"]),
   ("computer vision engineer", ["vision", "penglihatan komputer", "image", "citra"]),
   ("nlp engineer", ["nlp", "natural language", "bahasa alami", "text"])]

/-- Pretty labels for the four lab categories. -/
def labLabels : List (String × String) :=
  [("algkom", "Algoritma & Komputasi"),
   ("rpld", "Rekayasa Perangkat Lunak & Data"),
   ("ai", "Sistem Cerdas"),
   ("skj", "Sistem Komputer & Jaringan")]

/-- The career to lab-priority map from CourseRecommender.__init__ (insertion
order preserved; order matters for the first-match lookup). -/
def careerLabPreferences : List (String × List String) :=
  [("frontend developer", ["rpld", "algkom", "skj"]),
   ("ui/ux designer", ["rpld", "algkom"]),
   ("web developer", ["rpld", "algkom"]),
   ("full stack developer", ["rpld", "algkom", "skj"]),
   ("backend developer", ["rpld", "skj", "algkom"]),
   ("data scientist", ["ai", "algkom", "rpld"]),
   ("data engineer", ["rpld", "skj"]),
   ("ai engineer", ["ai", "algkom", "rpld"]),
   ("machine learning engineer", ["ai", "algkom", "rpld"]),
   ("computer vision engineer", ["ai", "algkom"]),
   ("nlp engineer", ["ai", "algkom"]),
   ("devops engineer", ["skj", "rpld"]),
   ("cloud engineer", ["skj", "rpld"]),
   ("security analyst", ["skj", "rpld"]),
   ("network engineer", ["skj"]),
   ("product manager", ["rpld", "algkom"]),
   ("project manager", ["rpld"]),
   ("business", ["rpld"]),
   ("business analyst", ["rpld"]),
   ("qa engineer", ["rpld"]),
   ("mobile developer", ["rpld", "algkom"]),
   ("game developer", ["algkom", "ai"]),
   ("database administrator", ["rpld", "skj"]),
   ("blockchain developer", ["skj", "rpld"]),
   ("software engineer", ["rpld", "algkom"])]

/-- CourseRecommender._lab_category: derive a lab category code from the
course type label; first matching category wins, `none` if no match. -/
def labCategory (course_type : Option String) : Option String :=
  let ct := pyLower (course_type.getD "")
  if ct = "" then none
  else if pyIn "algoritma" ct || pyIn "komputasi" ct then some "algkom"
  else if pyIn "rekayasa perangkat lunak" ct || pyIn " rpl" ct || pyIn " data" ct then some "rpld"
  else if pyIn "sistem cerdas" ct || pyIn "kecerdasan" ct || pyIn "intelligent" ct then some "ai"
  else if pyIn "sistem komputer" ct || pyIn "jaringan" ct || pyIn "network" ct then some "skj"
  else none

/-- CourseRecommender._lab_preferences_for_career: first career key related
to the target by bidirectional substring containment. -/
def labPreferencesForCareer (career_target : Option String) : Option (List String) :=
  match career_target with
  | none => none
  | some ct =>
    if ct = "" then none
    else
      let key := pyLower ct
      ((careerLabPreferences.find? (fun p => pyIn p.1 key || pyIn key p.1)).map (fun p => p.2))

/-- Concatenated name/type text of a course, lowercased, as used by
_matches_interest (`" ".join([en, id, type]).lower()`). -/
def nameFields (c : Course) : String :=
  pyLower (String.intercalate " " [c.course_name_en, c.course_name_id, c.type.getD ""])

/-- Lowercased topic text of a course (`" ".join(topics).lower()`, empty when
the course has no topics). -/
def topicsText (c : Course) : String :=
  pyLower (String.intercalate " " c.topics)

/-- CourseRecommender._matches_interest: the number of interest strings that
occur in the concatenated name fields or the topic text. -/
def matchesInterest (c : Course) (interests : List String) : Nat :=
  interests.countP (fun it =>
    pyIn (pyLower it) (nameFields c) || pyIn (pyLower it) (topicsText c))

/-- Course text haystack used by _career_relevance inside the keyword loop
(includes the type label). -/
def careerHay (c : Course) : String :=
  pyLower (String.intercalate " "
    [c.course_name_en, c.course_name_id, String.intercalate " " c.topics, c.type.getD ""])

/-- Course text haystack used by the _career_relevance fallback (no type
label). -/
def careerHayFallback (c : Course) : String :=
  pyLower (String.intercalate " "
    [c.course_name_en, c.course_name_id, String.intercalate " " c.topics])

/-- Whitespace tokenizer: split into maximal non-whitespace runs, the
accumulator holding the current run reversed. -/
def wsTokens : List Char → List Char → List String
  | [], acc => if acc = [] then [] else [String.mk acc.reverse]
  | c :: cs, acc =>
    if c.isWhitespace then
      (if acc = [] then wsTokens cs [] else String.mk acc.reverse :: wsTokens cs [])
    else wsTokens cs (c :: acc)

/-- Python `career_key.split()`: whitespace tokenisation with no empty
tokens. -/
def pySplitWs (s : String) : List String := wsTokens s.toList []

/-- CourseRecommender._career_relevance. -/
def careerRelevance (c : Course) (career_target : Option String) : Bool :=
  match career_target with
  | none => false
  | some ct =>
    if ct = "" then false
    else
      let career_key := pyLower ct
      (careerKeywordMap.any (fun p =>
        (pyIn p.1 career_key || pyIn career_key p.1) &&
          p.2.any (fun kw => pyIn kw (careerHay c)))) ||
      ((pySplitWs career_key).any (fun tok => pyIn tok (careerHayFallback c)))

/-- Scalar semester argument: Python `Union[int, str]`. -/
inductive SemTok where
  | num (n : Int)
  | tok (s : String)
deriving DecidableEq, Repr

/-- Digit-string value, `none` when empty or not all digits. -/
def digitsToNat? (cs : List Char) : Option Nat :=
  match cs with
  | [] => none
  | _ :: _ =>
    if cs.all Char.isDigit then
      some (cs.foldl (fun n c => n * 10 + (c.toNat - 48)) 0)
    else none

/-- Python `int(val)` on a string (`_to_int`), `none` on failure: optional
sign, then digits, surrounding whitespace ignored. -/
def pyToInt (s : String) : Option Int :=
  match (pyStrip s).toList with
  | [] => none
  | c :: rest =>
    if c = Char.ofNat 45 then (digitsToNat? rest).map (fun n => -(n : Int))
    else if c = Char.ofNat 43 then (digitsToNat? rest).map (fun n => (n : Int))
    else (digitsToNat? (c :: rest)).map (fun n => (n : Int))

/-- Canonical integer set: sorted, duplicate-free list (Python `set`
equality and iteration in sorted order coincide with this encoding for the
uses below, which are membership, disjointness and sorted display). -/
def setOfInts (l : List Int) : List Int :=
  (isortBy (fun a b => decide (a ≤ b)) l).dedup

/-- recommend_courses._expand_semester_pref.  A scalar Python argument is
passed as the token itself; a collection argument is expanded element-wise
by the caller. -/
def expandSemesterPref : SemTok → List Int
  | .num n => [n]
  | .tok s =>
    let p := pyLower (pyStrip s)
    if p = "gasal" ∨ p = "ganjil" ∨ p = "odd" then [1, 3, 5, 7]
    else if p = "genap" ∨ p = "even" then [2, 4, 6, 8]
    else match pyToInt p with
      | some n => [n]
      | none => []

/-- recommend_courses._expand_next_from_current. -/
def expandNextFromCurrent : SemTok → List Int
  | .num n => if 1 ≤ n ∧ n < 8 then [n + 1] else []
  | .tok s =>
    let p := pyLower (pyStrip s)
    if p = "gasal" ∨ p = "ganjil" ∨ p = "odd" then [2, 4, 6, 8]
    else if p = "genap" ∨ p = "even" then [1, 3, 5, 7]
    else match pyToInt p with
      | some n => if 1 ≤ n ∧ n < 8 then [n + 1] else []
      | none => []

/-- Semester-preference accumulation in recommend_courses: an explicit
preference is expanded element-wise; otherwise the current semester (when
given) is expanded to the next semester(s). -/
def semPrefAcc (semester_preference : Option (List SemTok))
    (current_semester : Option SemTok) : List Int :=
  match semester_preference with
  | some items => items.flatMap expandSemesterPref
  | none =>
    match current_semester with
    | some cur => expandNextFromCurrent cur
    | none => []

/-- Final resolved preferred-semester set: `set(acc) if acc else None`. -/
def resolveSemPref (semester_preference : Option (List SemTok))
    (current_semester : Option SemTok) : Option (List Int) :=
  let acc := semPrefAcc semester_preference current_semester
  if acc = [] then none else some (setOfInts acc)

/-- One result record of recommend_courses. -/
structure RecRecord where
  course_code : String
  course_name_id : String
  course_name_en : String
  sks : Option Int
  score : Int
  reason : List String
deriving DecidableEq, Repr

/-- Condition guarding the `Wajib Program Studi` +5 type bonus
(recommend_courses, lines 401-405), applied to the lowercased type label. -/
def wajibPriorityBonusApplies (ct : String) : Bool :=
  pyIn "wajib program studi" ct || pyIn "wajib prodi" ct

/-- Arguments of CourseRecommender.recommend_courses together with the
loaded knowledge tables.  `sks_preference` is the normalised credit-weight
set (a Python scalar becomes a singleton); `semester_preference` likewise
holds the scalar-or-collection argument as a list of tokens. -/
structure RecArgs where
  courses : List Course
  prereq : List (String × List Prereq)
  courses_taken : List String
  interests : List String := []
  target_career : Option String := none
  sks_preference : Option (List Int) := none
  semester_preference : Option (List SemTok) := none
  current_semester : Option SemTok := none
  sks_must_match : Bool := false
  top_n : Nat := 3

/-- Non-corequisite prerequisite codes of a rule list. -/
def nonCoreqCodes (prereqs : List Prereq) : List String :=
  (prereqs.filter (fun p => !p.is_corequisite)).map Prereq.code

/-- Corequisite prerequisite codes of a rule list. -/
def coreqCodes (prereqs : List Prereq) : List String :=
  (prereqs.filter (fun p => p.is_corequisite)).map Prereq.code

/-- Scoring contribution: prerequisites satisfied (+50). -/
def scorePrereqSat (taken non_coreq : List String) : Int × List String :=
  if non_coreq = [] ∨ non_coreq.all taken.contains = true then
    (50, [if non_coreq ≠ [] then
            "Prerequisite(s) satisfied: " ++ String.intercalate ", " non_coreq
          else "No strict (non-coreq) prerequisites"])
  else (0, [])

/-- Scoring contribution: corequisites present (+20) and already taken
(+10 more). -/
def scoreCoreq (taken coreq : List String) : Int × List String :=
  if coreq ≠ [] then
    let base : Int × List String :=
      (20, ["Has corequisite(s): " ++ String.intercalate ", " coreq])
    if coreq.all taken.contains then
      (base.1 + 10, base.2 ++ ["Corequisite(s) already taken"])
    else base
  else (0, [])

/-- Scoring contribution: +15 per interest match. -/
def scoreInterest (im : Nat) : Int × List String :=
  if im ≠ 0 then
    (15 * (im : Int), ["Interest matches: " ++ toString im ++ " match(es)"])
  else (0, [])

/-- Scoring contribution: career relevance (+10). -/
def scoreCareer (target_career : Option String) (c : Course) : Int × List String :=
  match target_career with
  | some tc =>
    if tc ≠ "" ∧ careerRelevance c (some tc) = true then
      (10, ["Relevant for career: " ++ tc])
    else (0, [])
  | none => (0, [])

/-- Scoring contribution: SKS preference match (+5). -/
def scoreSksPref (sks_preference : Option (List Int)) (sks : Option Int) :
    Int × List String :=
  match sks_preference, sks with
  | some sp, some v =>
    if sp.contains v then (5, ["SKS matches preference: " ++ toString v])
    else (0, [])
  | _, _ => (0, [])

/-- Scoring contribution: lab-category alignment with the career preference
list (tiered 20/12/6/3, then 2). -/
def scoreLab (target_career : Option String) (ctype : Option String) :
    Int × List String :=
  match labCategory ctype, labPreferencesForCareer target_career with
  | some lab_cat, some lab_pref =>
    if lab_pref.contains lab_cat then
      let idx := lab_pref.indexOf lab_cat
      let bonus : Int :=
        if idx < 4 then ([20, 12, 6, 3] : List Int).getD idx 0 else 2
      let pretty := (lookupAssoc labLabels lab_cat).getD lab_cat
      (bonus, ["Lab preference match: " ++ pretty ++ " (priority " ++
               toString (idx + 1) ++ ") for " ++ (target_career.getD "")])
    else (0, [])
  | _, _ => (0, [])

/-- Scoring contribution: preferred-semester overlap (+15), or a note when
the course has no semester data. -/
def scoreSemester (semPrefSet : Option (List Int)) (course_sems : List Int) :
    Int × List String :=
  match semPrefSet with
  | some sp =>
    if !course_sems.isEmpty then
      if !(course_sems.all (fun s => !sp.contains s)) then
        (15, ["Semester matches preference: " ++
              String.intercalate ", "
                ((course_sems.filter sp.contains).map toString)])
      else (0, [])
    else (0, ["Semester info unavailable"])
  | none => (0, [])

/-- Scoring contribution: `Wajib Program Studi` priority marker (+5). -/
def scoreWajib (ct : String) : Int × List String :=
  if wajibPriorityBonusApplies ct then (5, ["Wajib Program Studi (priority)"])
  else (0, [])

/-- Scored result record for a course that survived the eligibility
filters, with contributions in source order. -/
def buildRecord (a : RecArgs) (semPrefSet : Option (List Int)) (c : Course)
    (prereqs : List Prereq) : RecRecord :=
  let s1 := scorePrereqSat a.courses_taken (nonCoreqCodes prereqs)
  let s2 := scoreCoreq a.courses_taken (coreqCodes prereqs)
  let s3 := scoreInterest (matchesInterest c a.interests)
  let s4 := scoreCareer a.target_career c
  let s5 := scoreSksPref a.sks_preference c.sks
  let s6 := scoreLab a.target_career c.type
  let s7 := scoreSemester semPrefSet (setOfInts c.semesters)
  let s8 := scoreWajib (pyLower (c.type.getD ""))
  { course_code := c.course_code
    course_name_id := c.course_name_id
    course_name_en := c.course_name_en
    sks := c.sks
    score := s1.1 + s2.1 + s3.1 + s4.1 + s5.1 + s6.1 + s7.1 + s8.1
    reason := s1.2 ++ s2.2 ++ s3.2 ++ s4.2 ++ s5.2 ++ s6.2 ++ s7.2 ++ s8.2 }

/-- Semester-filter rejection: a preference exists, the course declares
semesters, and they are disjoint from the preferred set. -/
def semFilterOut (semPrefSet : Option (List Int)) (course_sems : List Int) : Bool :=
  match semPrefSet with
  | some sp => !course_sems.isEmpty && course_sems.all (fun s => !sp.contains s)
  | none => false

/-- Strict SKS-filter rejection (`sks_must_match`): a preference exists and
the course SKS is missing or not in the preferred set. -/
def sksFilterOut (must_match : Bool) (sks_preference : Option (List Int))
    (sks : Option Int) : Bool :=
  must_match &&
    match sks_preference with
    | some sp =>
      (match sks with
       | some v => !sp.contains v
       | none => true)
    | none => false

/-- Non-coreq-prerequisite rejection: some non-corequisite prerequisite is
not yet taken (`non_coreq and not set(non_coreq).issubset(taken_set)`). -/
def nonCoreqFilterOut (taken non_coreq : List String) : Bool :=
  !non_coreq.isEmpty && !(non_coreq.all taken.contains)

/-- Loop body of recommend_courses for one course: eligibility filtering
(each early `continue` becomes `none`) followed by scoring; returns the
result record for surviving candidates.  `semPrefSet` is the resolved
preferred-semester set. -/
def evalCourse (a : RecArgs) (semPrefSet : Option (List Int)) (c : Course) :
    Option RecRecord :=
  if c.course_code == "" then none
  else if a.courses_taken.contains c.course_code then none
  -- only consider non-mandatory (elective) courses
  else if pyIn "wajib" (pyLower (c.type.getD "")) then none
  else
    -- must have prerequisite rules entry
    match lookupAssoc a.prereq c.course_code with
    | none => none
    | some prereqs =>
      if prereqs.isEmpty then none
      -- non-coreq prerequisites must already be taken
      else if nonCoreqFilterOut a.courses_taken (nonCoreqCodes prereqs) then none
      -- semester filtering
      else if semFilterOut semPrefSet (setOfInts c.semesters) then none
      -- strict SKS filtering (if requested)
      else if sksFilterOut a.sks_must_match a.sks_preference c.sks then none
      else some (buildRecord a semPrefSet c prereqs)

/-- Sort key comparison of recommend_courses: Python
`key=lambda x: (-score, sks or 0, course_code)` under tuple order. -/
def recKeyLe (x y : RecRecord) : Bool :=
  (y.score < x.score) ||
  (x.score == y.score &&
    ((x.sks.getD 0 < y.sks.getD 0) ||
     (x.sks.getD 0 == y.sks.getD 0 && strLe x.course_code y.course_code)))

/-- All evaluated (surviving) candidate records, in course-table order. -/
def evaluatedList (a : RecArgs) : List RecRecord :=
  a.courses.filterMap
    (evalCourse a (resolveSemPref a.semester_preference a.current_semester))

/-- CourseRecommender.recommend_courses: evaluate every course, sort by
(-score, sks or 0, code) with a stable sort, truncate to `top_n`. -/
def recommendCourses (a : RecArgs) : List RecRecord :=
  (isortBy recKeyLe (evaluatedList a)).take a.top_n

/-- Canonical code set (Python `frozenset` of course codes): sorted,
duplicate-free list, so Lean equality is Python set equality. -/
def sinsertStr (x : String) (l : List String) : List String :=
  if l.contains x then l else insSorted strLe x l

/-- Set union on canonical code sets (`set(prev) | set(cur)`). -/
def sunion (a b : List String) : List String :=
  b.foldl (fun acc x => sinsertStr x acc) a

/-- Arguments of CoursePlanner.plan_until_graduation_astar together with the
loaded tables.  `per_semester_caps` is the already-parsed list form of the
argument (the comma-separated-string form parses to the same list). -/
structure PlanArgs where
  courses : List Course
  prereq : List (String × List Prereq)
  name : String := ""
  courses_taken : List String := []
  interests : List String := []
  career_goal : Option String := none
  current_semester : Nat := 1
  per_semester_caps : Option (List Int) := none
  top_candidates : Nat := 15
  max_expansions : Nat := 20000

/-- CoursePlanner._is_elective. -/
def isElective (c : Course) : Bool :=
  !(pyIn "wajib" (pyLower (c.type.getD "")))

/-- CoursePlanner._offered_in_semester. -/
def offeredInSemester (c : Course) (sem : Nat) : Bool :=
  let sems := c.semesters
  if sems.isEmpty then true
  else
    let semsInt := setOfInts sems
    if semsInt.isEmpty then true else semsInt.contains (sem : Int)

/-- CoursePlanner._prereq_ok: a missing rule entry or an empty prerequisite
list counts as no strict prerequisites. -/
def prereqOk (prereq : List (String × List Prereq)) (code : String)
    (taken : List String) : Bool :=
  match lookupAssoc prereq code with
  | none => true
  | some prereqs =>
    if prereqs.isEmpty then true
    else ((prereqs.filter (fun p => !p.is_corequisite)).map Prereq.code).all taken.contains

/-- CoursePlanner._score: interests, career relevance and lab preference
contributions (no prerequisite or SKS terms). -/
def plannerScore (interests : List String) (career_goal : Option String)
    (c : Course) : Int :=
  let s1 : Int := 15 * (matchesInterest c interests : Int)
  let s2 : Int :=
    match career_goal with
    | some cg => if cg = "" then 0 else if careerRelevance c (some cg) then 10 else 0
    | none => 0
  let s3 : Int :=
    match labCategory c.type, labPreferencesForCareer career_goal with
    | some lab_cat, some lab_pref =>
      if lab_pref.contains lab_cat then
        let idx := lab_pref.indexOf lab_cat
        if idx < 4 then ([20, 12, 6, 3] : List Int).getD idx 0 else 2
      else 0
    | _, _ => 0
  s1 + s2 + s3

/-- The course_by_code dict (`{c["course_code"]: c for c in courses if
c["course_code"]}`): the last course with a truthy code wins. -/
def courseByCode (courses : List Course) (k : String) : Option Course :=
  ((courses.filter (fun c => c.course_code != "")).reverse).find?
    (fun c => c.course_code == k)

/-- Parsed per-semester cap list: only positive entries are kept. -/
def capsListOf (caps : Option (List Int)) : List Int :=
  (caps.getD []).filter (fun n => decide (0 < n))

/-- Per-semester cap lookup `caps_map.get(sem, 20)`: caps are assigned
sequentially to semesters `start_sem .. 7`. -/
def capOf (capsList : List Int) (startSem sem : Nat) : Int :=
  if startSem ≤ sem ∧ sem < 8 ∧ sem - startSem < capsList.length then
    capsList.getD (sem - startSem) 20
  else 20

/-- The cap applying to one semester for a given planner input. -/
def capOfA (a : PlanArgs) (sem : Nat) : Int :=
  capOf (capsListOf a.per_semester_caps) (a.current_semester + 1) sem

/-- Search state `(sem, used_sks, planned_prev, planned_cur)`.  `used` is a
natural number: it starts at zero and only grows by the (positive, guarded)
SKS of added courses, exactly as in the source. -/
structure St where
  sem : Nat
  used : Nat
  prev : List String
  cur : List String
deriving DecidableEq, Repr

/-- Search action recorded in came_from: `("add", code)` or
`("advance", None)`. -/
inductive PAction where
  | add (code : String)
  | advance
deriving DecidableEq, Repr

/-- Heap entry `(f, state)`. -/
abbrev HeapEntry := Int × St

/-- Dummy heap entry backing out-of-range reads; every read below is
in range when the heap invariants of the original library hold. -/
def dummyHE : HeapEntry := (0, ⟨0, 0, [], []⟩)

/-- Python frozenset strict order (proper subset) on canonical code sets. -/
def fsetLt (a b : List String) : Bool :=
  a != b && a.all b.contains

/-- Python tuple comparison of two states (used only for heap ordering when
`f` values tie): ints compare numerically, frozensets by proper subset. -/
def stLt (a b : St) : Bool :=
  if a.sem ≠ b.sem then decide (a.sem < b.sem)
  else if a.used ≠ b.used then decide (a.used < b.used)
  else if a.prev ≠ b.prev then fsetLt a.prev b.prev
  else if a.cur ≠ b.cur then fsetLt a.cur b.cur
  else false

/-- Python `<` on heap entries `(f, state)`. -/
def entryLt (x y : HeapEntry) : Bool :=
  decide (x.1 < y.1) || (x.1 == y.1 && stLt x.2 y.2)

/-- CPython heapq._siftdown: move `newitem` up towards the root.  The fuel
is the initial position: the position strictly decreases each iteration, so
the fuel never runs out before the natural loop exit (and at position 0 the
fuel-exhausted result coincides with the loop exit). -/
def siftdownLoop (fuel : Nat) (heap : List HeapEntry) (startpos pos : Nat)
    (newitem : HeapEntry) : List HeapEntry :=
  match fuel with
  | 0 => heap.set pos newitem
  | fuel + 1 =>
    if startpos < pos then
      let parentpos := (pos - 1) / 2
      let parent := heap.getD parentpos dummyHE
      if entryLt newitem parent then
        siftdownLoop fuel (heap.set pos parent) startpos parentpos newitem
      else heap.set pos newitem
    else heap.set pos newitem

/-- CPython heapq._siftup: bubble the hole at `pos` down to a leaf, placing
`newitem` there, then sift it back up.  The fuel is the heap length: the
position strictly increases while staying below `endpos`, so the fuel never
runs out before the natural loop exit. -/
def siftupLoop (fuel : Nat) (heap : List HeapEntry) (endpos startpos pos : Nat)
    (newitem : HeapEntry) : List HeapEntry :=
  match fuel with
  | 0 => siftdownLoop pos (heap.set pos newitem) startpos pos newitem
  | fuel + 1 =>
    let childpos := 2 * pos + 1
    if childpos < endpos then
      let rightpos := childpos + 1
      if rightpos < endpos &&
          !(entryLt (heap.getD childpos dummyHE) (heap.getD rightpos dummyHE)) then
        siftupLoop fuel (heap.set pos (heap.getD rightpos dummyHE)) endpos startpos
          rightpos newitem
      else
        siftupLoop fuel (heap.set pos (heap.getD childpos dummyHE)) endpos startpos
          childpos newitem
    else siftdownLoop pos (heap.set pos newitem) startpos pos newitem

/-- CPython heapq.heappush. -/
def heappush (heap : List HeapEntry) (item : HeapEntry) : List HeapEntry :=
  siftdownLoop heap.length (heap ++ [item]) 0 heap.length item

/-- CPython heapq.heappop: `none` on the empty heap (Python raises). -/
def heappop (heap : List HeapEntry) : Option (HeapEntry × List HeapEntry) :=
  match heap with
  | [] => none
  | _ :: _ =>
    let lastelt := (heap.getLast? ).getD dummyHE
    let rest := heap.dropLast
    if rest.isEmpty then some (lastelt, [])
    else some (rest.getD 0 dummyHE,
      siftupLoop rest.length (rest.set 0 lastelt) rest.length 0 0 lastelt)

/-- Mutable state of the A* search loop. -/
structure Frontier where
  heap : List HeapEntry
  gCost : List (St × Int)
  cameFrom : List (St × (St × PAction))
  expansions : Nat

/-- CoursePlanner._candidate_courses_for_semester. -/
def candidateCoursesForSemester (a : PlanArgs) (sem : Nat)
    (takenPrev : List String) : List Course :=
  a.courses.filter (fun c =>
    c.course_code != "" && isElective c && offeredInSemester c sem &&
      prereqOk a.prereq c.course_code takenPrev)

/-- Comparison with the `float("inf")` default of `g_cost.get`. -/
def ltInf (t : Int) (g? : Option Int) : Bool :=
  match g? with
  | none => true
  | some g => decide (t < g)

/-- Transition 1 of the search: try to add one candidate course to the
current semester (cost 0), recording the new state when it improves. -/
def addCandidate (a : PlanArgs) (st : St) (fr : Frontier) (c : Course) : Frontier :=
  let sks := pySks c
  let cap := capOfA a st.sem
  if sks ≤ 0 ∨ (st.used : Int) + sks > cap then fr
  else
    let code := c.course_code
    if code = "" then fr
    else
      -- adding within a semester is free; reward applied when advancing
      let step_cost : Int := 0
      let newState : St := ⟨st.sem, st.used + sks.toNat, st.prev, sinsertStr code st.cur⟩
      let tentative := (lookupAssoc fr.gCost st).getD 0 + step_cost
      if ltInf tentative (lookupAssoc fr.gCost newState) then
        { fr with
          gCost := insertAssoc fr.gCost newState tentative
          cameFrom := insertAssoc fr.cameFrom newState (st, PAction.add code)
          heap := heappush fr.heap (tentative + 0, newState) }
      else fr

/-- Transition 2 of the search: advance to the next semester, paying
`max(0, 1000 - (semester score + 60 * semester SKS))`. -/
def advanceStep (a : PlanArgs) (st : St) (fr : Frontier) : Frontier :=
  let nextState : St := ⟨st.sem + 1, 0, sunion st.prev st.cur, []⟩
  let acc := st.cur.foldl (fun acc code =>
    match courseByCode a.courses code with
    | some course =>
      (acc.1 + plannerScore a.interests a.career_goal course, acc.2 + pySks course)
    | none => acc) ((0 : Int), (0 : Int))
  let effective := acc.1 + 60 * acc.2
  let step_cost := max 0 (1000 - effective)
  let tentative := (lookupAssoc fr.gCost st).getD 0 + step_cost
  if ltInf tentative (lookupAssoc fr.gCost nextState) then
    { fr with
      gCost := insertAssoc fr.gCost nextState tentative
      cameFrom := insertAssoc fr.cameFrom nextState (st, PAction.advance)
      heap := heappush fr.heap (tentative + 0, nextState) }
  else fr

/-- One expansion of a popped non-goal state: generate candidates, keep the
top-K by score (stable descending sort), try each add, then advance. -/
def expandState (a : PlanArgs) (st : St) (fr : Frontier) : Frontier :=
  let takenPrev := a.courses_taken ++ st.prev
  let cands0 := candidateCoursesForSemester a st.sem takenPrev
  let chosenAll := st.prev ++ st.cur
  let cands1 := cands0.filter (fun c => !chosenAll.contains c.course_code)
  let cands2 := isortBy
    (fun x y => decide (plannerScore a.interests a.career_goal y ≤
                        plannerScore a.interests a.career_goal x)) cands1
  let cands3 := if 0 < a.top_candidates then cands2.take a.top_candidates else cands2
  advanceStep a st (cands3.foldl (addCandidate a st) fr)

/-- Goal test `sem >= 8`. -/
def goalP (st : St) : Bool := decide (8 ≤ st.sem)

/-- The A* loop.  The fuel equals the remaining expansion budget: each
iteration pops one state and increments `expansions`, so running with fuel
`max_expansions` is exactly the `while open_heap and expansions <
max_expansions` loop; popping a goal state breaks out. -/
def astarLoop (a : PlanArgs) : Nat → Frontier → Frontier
  | 0, fr => fr
  | fuel + 1, fr =>
    match heappop fr.heap with
    | none => fr
    | some (e, heap') =>
      let st := e.2
      let fr1 : Frontier := { fr with heap := heap', expansions := fr.expansions + 1 }
      if goalP st then fr1
      else astarLoop a fuel (expandState a st fr1)

/-- Initial frontier: the start state `(current+1, 0, {}, {})` with cost 0. -/
def initFrontier (a : PlanArgs) : Frontier :=
  let startState : St := ⟨a.current_semester + 1, 0, [], []⟩
  { heap := heappush [] (0, startState)
    gCost := [(startState, 0)]
    cameFrom := []
    expansions := 0 }

/-- Run the search to its final frontier. -/
def runSearch (a : PlanArgs) : Frontier :=
  astarLoop a a.max_expansions (initFrontier a)

/-- Python `min` over a list: strict comparison, first minimum wins. -/
def pyMinBy (lt : α → α → Bool) : List α → Option α
  | [] => none
  | x :: xs => some (xs.foldl (fun b a => if lt a b then a else b) x)

/-- Key of the fallback state selection: `(-sem, g_cost[s])`. -/
def selKey (gCost : List (St × Int)) (s : St) : Int × Int :=
  (-(s.sem : Int), (lookupAssoc gCost s).getD 0)

/-- Python `<` on the fallback selection keys. -/
def selKeyLt (x y : Int × Int) : Bool :=
  decide (x.1 < y.1) || (x.1 == y.1 && decide (x.2 < y.2))

/-- Result-state selection: minimum-cost goal state if one was recorded,
otherwise the state with the greatest semester, tie-broken by cost.  The
final fallback value is never reached because g_cost always holds the start
state. -/
def selectBest (a : PlanArgs) (gCost : List (St × Int)) : St :=
  let goalStates := gCost.filter (fun p => decide (8 ≤ p.1.sem))
  match pyMinBy (fun p q => decide (p.2 < q.2)) goalStates with
  | some p => p.1
  | none =>
    match pyMinBy (fun s t => selKeyLt (selKey gCost s) (selKey gCost t))
        (gCost.map (fun p => p.1)) with
    | some s => s
    | none => ⟨a.current_semester + 1, 0, [], []⟩

/-- Reconstructed action chain in forward order (the source walks the
came_from chain backwards collecting `(action, prev.sem)` and reverses).
Each recorded edge strictly decreases `(sem, used)` backwards, so the walk
meets pairwise-distinct keys and ends within `|came_from|` steps; the fuel
makes that explicit. -/
def chainActions (cameFrom : List (St × (St × PAction))) :
    Nat → St → List (PAction × Nat)
  | 0, _ => []
  | fuel + 1, node =>
    match lookupAssoc cameFrom node with
    | none => []
    | some (p, act) => chainActions cameFrom fuel p ++ [(act, p.sem)]

/-- Append a course to the list at key `s` of the schedule map (a no-op on a
missing key, which cannot occur: appends are range-guarded). -/
def appendAt (m : List (Nat × List Course)) (s : Nat) (c : Course) :
    List (Nat × List Course) :=
  m.map (fun p => if p.1 == s then (p.1, p.2 ++ [c]) else p)

/-- One reconstruction step: an add action appends its course to its
semester entry when the semester is in range, the code was not already
placed, and the course exists; advance actions are skipped. -/
def reconStep (a : PlanArgs) (startSem : Nat)
    (acc : List (Nat × List Course) × List String) (pa : PAction × Nat) :
    List (Nat × List Course) × List String :=
  match pa with
  | (PAction.advance, _) => acc
  | (PAction.add code, semAt) =>
    if semAt < startSem ∨ 7 < semAt then acc
    else if acc.2.contains code then acc
    else
      match courseByCode a.courses code with
      | none => acc
      | some course => (appendAt acc.1 semAt course, acc.2 ++ [code])

/-- Build the per-semester schedule map from the action chain: keys
`start_sem .. 7` initialised empty, then each add action appends its course
once (global de-duplication via chosen_codes). -/
def buildScheduleMap (a : PlanArgs) (actions : List (PAction × Nat)) :
    List (Nat × List Course) :=
  let startSem := a.current_semester + 1
  let init := (List.range' startSem (8 - startSem)).map
    (fun s => (s, ([] : List Course)))
  (actions.foldl (reconStep a startSem) (init, ([] : List String))).1

/-- One term of the returned schedule. -/
structure ScheduleEntry where
  semester : Nat
  courses : List Course
  sks : Int
deriving DecidableEq, Repr

/-- Return value of plan_until_graduation_astar. -/
structure PlanResult where
  name : String
  start_semester : Nat
  schedule : List ScheduleEntry
deriving DecidableEq, Repr

/-- Compose the final schedule array over semesters `start_sem .. 7`. -/
def composeSchedule (a : PlanArgs) (m : List (Nat × List Course)) :
    List ScheduleEntry :=
  let startSem := a.current_semester + 1
  (List.range' startSem (8 - startSem)).map (fun sem =>
    let courses := (lookupAssoc m sem).getD []
    { semester := sem
      courses := courses
      sks := courses.foldl (fun t c => t + pySks c) 0 })

/-- CoursePlanner.plan_until_graduation_astar. -/
def planUntilGraduationAstar (a : PlanArgs) : PlanResult :=
  let fr := runSearch a
  let best := selectBest a fr.gCost
  let actions := chainActions fr.cameFrom fr.cameFrom.length best
  let m := buildScheduleMap a actions
  { name := a.name
    start_semester := a.current_semester
    schedule := composeSchedule a m }

/-- Sample elective course: positive SKS, elective type label, offered every
semester, and deliberately absent from the prerequisite table. -/
def sampleElective : Course :=
  { course_code := "EL1"
    course_name_id := "Pilihan Satu"
    course_name_en := "Elective One"
    sks := some 3
    type := some "pilihan"
    topics := []
    semesters := [] }

/-- Planner input whose taken set already contains the only elective. -/
def planArgsTaken : PlanArgs :=
  { courses := [sampleElective]
    prereq := []
    name := "A"
    courses_taken := ["EL1"]
    interests := []
    career_goal := none
    current_semester := 6 }

/-- Planner input with an empty taken set (same knowledge tables). -/
def planArgsFree : PlanArgs :=
  { courses := [sampleElective]
    prereq := []
    name := "B"
    courses_taken := []
    interests := []
    career_goal := none
    current_semester := 6 }

/-- Planner input with a zero expansion budget: the loop never runs, no
state with semester 8 is recorded and the fallback selection applies. -/
def planArgsNoBudget : PlanArgs :=
  { planArgsFree with max_expansions := 0 }

/-- Sample course for the recommender: elective, one satisfied non-coreq
prerequisite. -/
def recSampleCourse : Course :=
  { course_code := "EL2"
    course_name_id := "Pilihan Dua"
    course_name_en := "Elective Two"
    sks := some 3
    type := some "pilihan"
    topics := []
    semesters := [] }

/-- Recommender input with exactly one eligible elective. -/
def recArgsSample : RecArgs :=
  { courses := [recSampleCourse]
    prereq := [("EL2", [{ code := "P1", is_corequisite := false }])]
    courses_taken := ["P1"] }

/-- Default schedule entry used to pick concrete list heads in witnesses. -/
def defaultScheduleEntry : ScheduleEntry :=
  { semester := 0, courses := [], sks := 0 }

/-- Default record used to pick concrete list heads in witnesses. -/
def defaultRecRecord : RecRecord :=
  { course_code := ""
    course_name_id := ""
    course_name_en := ""
    sks := none
    score := 0
    reason := [] }

/-- Validity of one recorded came_from edge, as guaranteed by the search
transitions: an add edge keeps the semester, pays the (positive) SKS of its
course into `used` within the cap of that semester, and its course is the
unique table entry for the code; an advance edge increments the semester and
resets `used`. -/
def ValidEdge (a : PlanArgs) (n p : St) (act : PAction) : Prop :=
  match act with
  | PAction.add code =>
    ∃ c, courseByCode a.courses code = some c ∧ 1 ≤ pySks c ∧
      (p.used : Int) + pySks c ≤ capOfA a p.sem ∧ n.sem = p.sem ∧
      (n.used : Int) = (p.used : Int) + pySks c
  | PAction.advance => n.sem = p.sem + 1 ∧ n.used = 0

/-- Invariant of the came_from table: every recorded edge is valid. -/
def InvCF (a : PlanArgs) (cf : List (St × (St × PAction))) : Prop :=
  ∀ e ∈ cf, ValidEdge a e.1 e.2.1 e.2.2

/-- SKS weight contributed by one reconstructed action (the SKS of its
looked-up course for an add, zero otherwise). -/
def actionWeight (a : PlanArgs) (pa : PAction × Nat) : Int :=
  match pa.1 with
  | PAction.add code => (courseByCode a.courses code).elim 0 pySks
  | PAction.advance => 0

/-- Total SKS weight of the actions recorded for semester `s`. -/
def sumSAt (a : PlanArgs) (s : Nat) (acts : List (PAction × Nat)) : Int :=
  (acts.map (fun pa => if pa.2 = s then actionWeight a pa else 0)).sum

/-- Total SKS committed to semester `s` in a schedule map. -/
def mapSumAt (m : List (Nat × List Course)) (s : Nat) : Int :=
  ((lookupAssoc m s).getD []).foldl (fun t c => t + pySks c) 0

theorem mem_insSorted (le : α → α → Bool) (a x : α) (l : List α) :
    x ∈ insSorted le a l → x = a ∨ x ∈ l := by
  induction l with
  | nil => intro h; simpa [insSorted] using h
  | cons b bs ih =>
    intro h
    by_cases hab : le a b = true
    · simp only [insSorted, if_pos hab] at h
      rcases List.mem_cons.mp h with h | h
      · exact Or.inl h
      · exact Or.inr h
    · simp only [insSorted, if_neg hab] at h
      rcases List.mem_cons.mp h with h | h
      · exact Or.inr (h ▸ List.mem_cons_self b bs)
      · rcases ih h with h | h
        · exact Or.inl h
        · exact Or.inr (List.mem_cons_of_mem b h)

theorem mem_isortBy (le : α → α → Bool) (x : α) (l : List α) :
    x ∈ isortBy le l → x ∈ l := by
  induction l with
  | nil => intro h; simp [isortBy] at h
  | cons a as ih =>
    intro h
    rcases mem_insSorted le a x _ h with h | h
    · simp [h]
    · exact List.mem_cons_of_mem a (ih h)

theorem pairwise_insSorted (le : α → α → Bool)
    (htot : ∀ a b, le a b = true ∨ le b a = true)
    (htrans : ∀ a b c, le a b = true → le b c = true → le a c = true)
    (a : α) (l : List α)
    (hl : l.Pairwise (fun x y => le x y = true)) :
    (insSorted le a l).Pairwise (fun x y => le x y = true) := by
  induction l with
  | nil => simp [insSorted]
  | cons b bs ih =>
    rcases List.pairwise_cons.mp hl with ⟨hb, hbs⟩
    by_cases hab : le a b = true
    · simp only [insSorted, if_pos hab]
      refine List.pairwise_cons.mpr ⟨?_, hl⟩
      intro y hy
      rcases List.mem_cons.mp hy with rfl | hy
      · exact hab
      · exact htrans a b y hab (hb y hy)
    · simp only [insSorted, if_neg hab]
      refine List.pairwise_cons.mpr ⟨?_, ih hbs⟩
      intro y hy
      rcases mem_insSorted le a y bs hy with rfl | hy
      · rcases htot y b with h | h
        · exact absurd h hab
        · exact h
      · exact hb y hy

theorem pairwise_isortBy (le : α → α → Bool)
    (htot : ∀ a b, le a b = true ∨ le b a = true)
    (htrans : ∀ a b c, le a b = true → le b c = true → le a c = true)
    (l : List α) :
    (isortBy le l).Pairwise (fun x y => le x y = true) := by
  induction l with
  | nil => simp [isortBy]
  | cons a as ih => exact pairwise_insSorted le htot htrans a _ ih

theorem mem_insertAssoc [BEq κ] [LawfulBEq κ] (d : List (κ × ν)) (k : κ) (v : ν)
    (e : κ × ν) (h : e ∈ insertAssoc d k v) : e ∈ d ∨ e = (k, v) := by
  unfold insertAssoc at h
  split at h
  · rcases List.mem_map.mp h with ⟨p, hp, hpe⟩
    by_cases hk : p.1 == k
    · simp only [hk, if_pos] at hpe
      exact Or.inr hpe.symm
    · rw [if_neg (by simpa using hk)] at hpe
      exact Or.inl (hpe ▸ hp)
  · rcases List.mem_append.mp h with h | h
    · exact Or.inl h
    · exact Or.inr (by simpa using h)

theorem insertAssoc_ne_nil [BEq κ] (d : List (κ × ν)) (k : κ) (v : ν) :
    insertAssoc d k v ≠ [] := by
  unfold insertAssoc
  split
  · rename_i hany
    rcases d with _ | ⟨p, d⟩
    · simp at hany
    · simp
  · simp

theorem lookupAssoc_mem [BEq κ] (d : List (κ × ν)) (k : κ) (v : ν)
    (h : lookupAssoc d k = some v) : ∃ k', (k', v) ∈ d := by
  unfold lookupAssoc at h
  cases hf : d.find? (fun p => p.1 == k) with
  | none => rw [hf] at h; simp at h
  | some p =>
    rw [hf] at h
    simp only [Option.map_some'] at h
    have hm := List.mem_of_find?_eq_some hf
    cases p with
    | mk k2 v2 =>
      have hv : v2 = v := by simpa using h
      subst hv
      exact ⟨k2, hm⟩

theorem leadMatch_append (n1 n2 hay : List Char) :
    leadMatch (n1 ++ n2) hay = true → leadMatch n1 hay = true := by
  induction n1 generalizing hay with
  | nil => intro _; rfl
  | cons a as ih =>
    intro h
    cases hay with
    | nil => simp [leadMatch] at h
    | cons b bs =>
      simp only [List.cons_append, leadMatch, Bool.and_eq_true] at h ⊢
      exact ⟨h.1, ih bs h.2⟩

theorem subMatch_append (n1 n2 hay : List Char) :
    subMatch (n1 ++ n2) hay = true → subMatch n1 hay = true := by
  induction hay with
  | nil =>
    intro h
    simp only [subMatch] at h ⊢
    exact leadMatch_append _ _ _ h
  | cons b bs ih =>
    intro h
    simp only [subMatch, Bool.or_eq_true] at h ⊢
    rcases h with h | h
    · exact Or.inl (leadMatch_append _ _ _ h)
    · exact Or.inr (ih h)

theorem pyIn_of_pyIn_append (s t : String) (ct : String)
    (hs : s.toList = ("wajib").toList ++ t.toList)
    (h : pyIn s ct = true) : pyIn "wajib" ct = true := by
  unfold pyIn at h ⊢
  rw [hs] at h
  exact subMatch_append _ _ _ h

theorem wajibBonus_false_of_not_wajib (ct : String)
    (h : pyIn "wajib" ct = false) : wajibPriorityBonusApplies ct = false := by
  have h1 : pyIn "wajib program studi" ct = false := by
    cases hb : pyIn "wajib program studi" ct
    · rfl
    · have := pyIn_of_pyIn_append "wajib program studi" " program studi" ct rfl hb
      rw [h] at this
      exact absurd this (by simp)
  have h2 : pyIn "wajib prodi" ct = false := by
    cases hb : pyIn "wajib prodi" ct
    · rfl
    · have := pyIn_of_pyIn_append "wajib prodi" " prodi" ct rfl hb
      rw [h] at this
      exact absurd this (by simp)
  unfold wajibPriorityBonusApplies
  rw [h1, h2]
  rfl

theorem capsListOf_pos (caps : Option (List Int)) :
    ∀ x ∈ capsListOf caps, 0 < x := by
  intro x hx
  unfold capsListOf at hx
  have := List.mem_filter.mp hx
  simpa using this.2

theorem capOf_nonneg (caps : Option (List Int)) (st s : Nat) :
    0 ≤ capOf (capsListOf caps) st s := by
  unfold capOf
  split
  · rename_i hcond
    have hlt : s - st < (capsListOf caps).length := hcond.2.2
    have hmem : (capsListOf caps).getD (s - st) 20 ∈ capsListOf caps := by
      rw [List.getD_eq_getElem _ _ hlt]
      exact List.getElem_mem hlt
    exact le_of_lt (capsListOf_pos caps _ hmem)
  · norm_num

/-- C7: the parity token odd (with variants gasal and ganjil) expands to
{1,3,5,7} and even (with variant genap) to {2,4,6,8}; with no explicit term
preference, a current term n with 1 <= n <= 7 resolves the preferred set to
{n+1}, current term 8 yields no next term (the accumulated list is empty and
the resolved set is the no-preference value), and a parity-token current
term resolves to the opposite-parity set. -/
theorem c7_term_preference_resolution :
    (expandSemesterPref (SemTok.tok "odd") = [1, 3, 5, 7] ∧
     expandSemesterPref (SemTok.tok "gasal") = [1, 3, 5, 7] ∧
     expandSemesterPref (SemTok.tok "ganjil") = [1, 3, 5, 7] ∧
     expandSemesterPref (SemTok.tok "even") = [2, 4, 6, 8] ∧
     expandSemesterPref (SemTok.tok "genap") = [2, 4, 6, 8]) ∧
    (∀ n : Int, 1 ≤ n → n ≤ 7 →
      resolveSemPref none (some (SemTok.num n)) = some [n + 1]) ∧
    (expandNextFromCurrent (SemTok.num 8) = [] ∧
     resolveSemPref none (some (SemTok.num 8)) = none) ∧
    (expandNextFromCurrent (SemTok.tok "odd") = [2, 4, 6, 8] ∧
     expandNextFromCurrent (SemTok.tok "gasal") = [2, 4, 6, 8] ∧
     expandNextFromCurrent (SemTok.tok "ganjil") = [2, 4, 6, 8] ∧
     expandNextFromCurrent (SemTok.tok "even") = [1, 3, 5, 7] ∧
     expandNextFromCurrent (SemTok.tok "genap") = [1, 3, 5, 7]) := by
  refine ⟨⟨by decide, by decide, by decide, by decide, by decide⟩, ?_, ⟨by decide, by decide⟩,
    by decide, by decide, by decide, by decide, by decide⟩
  intro n h1 h2
  have hexp : expandNextFromCurrent (SemTok.num n) = [n + 1] := by
    simp only [expandNextFromCurrent]
    rw [if_pos ⟨h1, by omega⟩]
  simp only [resolveSemPref, semPrefAcc, hexp]
  rw [if_neg (by simp)]
  simp [setOfInts, isortBy, insSorted]

/-- Witness for C7 at concrete inputs. -/
theorem c7_term_preference_resolution_witness :
    resolveSemPref none (some (SemTok.num 3)) = some [4] ∧
    expandSemesterPref (SemTok.tok "odd") = [1, 3, 5, 7] := by
  exact ⟨by
    have := c7_term_preference_resolution.2.1 3 (by norm_num) (by norm_num)
    simpa using this,
    c7_term_preference_resolution.1.1⟩

theorem strHead_append (p x : String) (hp : p.toList ≠ []) :
    (p ++ x).toList.head? = p.toList.head? := by
  show (p ++ x).data.head? = p.data.head?
  rw [String.data_append, List.head?_append]
  cases hd : p.data with
  | nil => exact absurd hd hp
  | cons c cs => simp [hd]

theorem ne_of_strHead (s t : String) (h : s.toList.head? ≠ t.toList.head?) :
    s ≠ t := by
  intro he
  exact h (by rw [he])

theorem mem_recommendCourses (a : RecArgs) (r : RecRecord)
    (h : r ∈ recommendCourses a) :
    ∃ c ∈ a.courses,
      evalCourse a (resolveSemPref a.semester_preference a.current_semester) c = some r := by
  unfold recommendCourses at h
  have h1 : r ∈ isortBy recKeyLe (evaluatedList a) := List.mem_of_mem_take h
  have h2 : r ∈ evaluatedList a := mem_isortBy _ _ _ h1
  exact List.mem_filterMap.mp h2

theorem evalCourse_some (a : RecArgs) (sp : Option (List Int)) (c : Course)
    (r : RecRecord) (h : evalCourse a sp c = some r) :
    (c.course_code == "") = false ∧
    a.courses_taken.contains c.course_code = false ∧
    pyIn "wajib" (pyLower (c.type.getD "")) = false ∧
    ∃ prereqs, lookupAssoc a.prereq c.course_code = some prereqs ∧
      prereqs.isEmpty = false ∧ r = buildRecord a sp c prereqs := by
  unfold evalCourse at h
  cases hb1 : c.course_code == "" with
  | true => rw [hb1] at h; simp at h
  | false =>
  rw [hb1] at h
  simp only [Bool.false_eq_true, if_false] at h
  cases hb2 : a.courses_taken.contains c.course_code with
  | true => rw [hb2] at h; simp at h
  | false =>
  rw [hb2] at h
  simp only [Bool.false_eq_true, if_false] at h
  cases hb3 : pyIn "wajib" (pyLower (c.type.getD "")) with
  | true => rw [hb3] at h; simp at h
  | false =>
  rw [hb3] at h
  simp only [Bool.false_eq_true, if_false] at h
  cases hlook : lookupAssoc a.prereq c.course_code with
  | none => rw [hlook] at h; simp at h
  | some prereqs =>
  rw [hlook] at h
  simp only [] at h
  cases hb4 : prereqs.isEmpty with
  | true => rw [hb4] at h; simp at h
  | false =>
  rw [hb4] at h
  simp only [Bool.false_eq_true, if_false] at h
  cases hb5 : nonCoreqFilterOut a.courses_taken (nonCoreqCodes prereqs) with
  | true => rw [hb5] at h; simp at h
  | false =>
  rw [hb5] at h
  simp only [Bool.false_eq_true, if_false] at h
  cases hb6 : semFilterOut sp (setOfInts c.semesters) with
  | true => rw [hb6] at h; simp at h
  | false =>
  rw [hb6] at h
  simp only [Bool.false_eq_true, if_false] at h
  cases hb7 : sksFilterOut a.sks_must_match a.sks_preference c.sks with
  | true => rw [hb7] at h; simp at h
  | false =>
  rw [hb7] at h
  simp only [Bool.false_eq_true, if_false, Option.some_inj] at h
  exact ⟨rfl, rfl, rfl, prereqs, rfl, hb4, h.symm⟩

theorem scorePrereqSat_nonneg (t nc : List String) : 0 ≤ (scorePrereqSat t nc).1 := by
  unfold scorePrereqSat; split <;> norm_num

theorem scoreCoreq_nonneg (t cq : List String) : 0 ≤ (scoreCoreq t cq).1 := by
  unfold scoreCoreq; split
  · split <;> norm_num
  · norm_num

theorem scoreInterest_nonneg (im : Nat) : 0 ≤ (scoreInterest im).1 := by
  unfold scoreInterest; split
  · simp only; positivity
  · norm_num

theorem scoreCareer_nonneg (tc : Option String) (c : Course) :
    0 ≤ (scoreCareer tc c).1 := by
  unfold scoreCareer
  cases tc with
  | none => norm_num
  | some s => simp only; split <;> norm_num

theorem scoreSksPref_nonneg (sp : Option (List Int)) (sks : Option Int) :
    0 ≤ (scoreSksPref sp sks).1 := by
  unfold scoreSksPref
  cases sp with
  | none => norm_num
  | some l =>
    cases sks with
    | none => norm_num
    | some v => simp only; split <;> norm_num

theorem labBonus_nonneg (idx : Nat) :
    0 ≤ (if idx < 4 then ([20, 12, 6, 3] : List Int).getD idx 0 else 2) := by
  split
  · rename_i hlt
    interval_cases idx <;> norm_num
  · norm_num

theorem scoreLab_nonneg (tc ct : Option String) : 0 ≤ (scoreLab tc ct).1 := by
  unfold scoreLab
  cases labCategory ct with
  | none => norm_num
  | some lab_cat =>
    cases labPreferencesForCareer tc with
    | none => norm_num
    | some lab_pref =>
      simp only
      split
      · exact labBonus_nonneg _
      · norm_num

theorem scoreSemester_nonneg (sp : Option (List Int)) (cs : List Int) :
    0 ≤ (scoreSemester sp cs).1 := by
  unfold scoreSemester
  cases sp with
  | none => norm_num
  | some l => simp only; split
              · split <;> norm_num
              · norm_num

theorem scoreWajib_nonneg (ct : String) : 0 ≤ (scoreWajib ct).1 := by
  unfold scoreWajib; split <;> norm_num

theorem buildRecord_score_nonneg (a : RecArgs) (sp : Option (List Int))
    (c : Course) (prereqs : List Prereq) :
    0 ≤ (buildRecord a sp c prereqs).score := by
  unfold buildRecord
  simp only
  have h1 := scorePrereqSat_nonneg a.courses_taken (nonCoreqCodes prereqs)
  have h2 := scoreCoreq_nonneg a.courses_taken (coreqCodes prereqs)
  have h3 := scoreInterest_nonneg (matchesInterest c a.interests)
  have h4 := scoreCareer_nonneg a.target_career c
  have h5 := scoreSksPref_nonneg a.sks_preference c.sks
  have h6 := scoreLab_nonneg a.target_career c.type
  have h7 := scoreSemester_nonneg sp (setOfInts c.semesters)
  have h8 := scoreWajib_nonneg (pyLower (c.type.getD ""))
  omega

theorem strToList_append_ne_nil (p q : String) (hp : p.toList ≠ []) :
    (p ++ q).toList ≠ [] := by
  show (p ++ q).data ≠ []
  rw [String.data_append]
  intro h
  exact hp (List.append_eq_nil.mp h).1

theorem ne_target_of_head (p x : String)
    (hne : p.toList.head? ≠ ("Wajib Program Studi (priority)" : String).toList.head?)
    (hp : p.toList ≠ []) :
    p ++ x ≠ "Wajib Program Studi (priority)" := by
  intro he
  have hh := strHead_append p x hp
  rw [he] at hh
  exact hne hh.symm

theorem target_notin_scorePrereqSat (t nc : List String) :
    "Wajib Program Studi (priority)" ∉ (scorePrereqSat t nc).2 := by
  unfold scorePrereqSat
  split
  · intro hm
    simp only [List.mem_singleton] at hm
    split at hm
    · exact absurd hm.symm (ne_target_of_head _ _ (by decide) (by decide))
    · exact absurd hm (by decide)
  · simp

theorem target_notin_scoreCoreq (t cq : List String) :
    "Wajib Program Studi (priority)" ∉ (scoreCoreq t cq).2 := by
  unfold scoreCoreq
  split
  · split
    · intro hm
      simp only [List.cons_append, List.nil_append, List.mem_cons,
        List.mem_singleton, List.not_mem_nil] at hm
      rcases hm with hm | hm
      · exact absurd hm.symm (ne_target_of_head _ _ (by decide) (by decide))
      · rcases hm with hm | hm
        · exact absurd hm (by decide)
        · simp at hm
    · intro hm
      simp only [List.mem_singleton] at hm
      exact absurd hm.symm (ne_target_of_head _ _ (by decide) (by decide))
  · simp

theorem target_notin_scoreInterest (im : Nat) :
    "Wajib Program Studi (priority)" ∉ (scoreInterest im).2 := by
  unfold scoreInterest
  split
  · intro hm
    simp only [List.mem_singleton] at hm
    refine absurd hm.symm (ne_target_of_head _ _ ?_ ?_)
    · rw [strHead_append "Interest matches: " (toString im) (by decide)]
      decide
    · exact strToList_append_ne_nil _ _ (by decide)
  · simp

theorem target_notin_scoreCareer (tc : Option String) (c : Course) :
    "Wajib Program Studi (priority)" ∉ (scoreCareer tc c).2 := by
  unfold scoreCareer
  cases tc with
  | none => simp
  | some s =>
    simp only
    split
    · intro hm
      simp only [List.mem_singleton] at hm
      exact absurd hm.symm (ne_target_of_head _ _ (by decide) (by decide))
    · simp

theorem target_notin_scoreSksPref (sp : Option (List Int)) (sks : Option Int) :
    "Wajib Program Studi (priority)" ∉ (scoreSksPref sp sks).2 := by
  unfold scoreSksPref
  cases sp with
  | none => simp
  | some l =>
    cases sks with
    | none => simp
    | some v =>
      simp only
      split
      · intro hm
        simp only [List.mem_singleton] at hm
        exact absurd hm.symm (ne_target_of_head _ _ (by decide) (by decide))
      · simp

theorem target_notin_scoreLab (tc ct : Option String) :
    "Wajib Program Studi (priority)" ∉ (scoreLab tc ct).2 := by
  unfold scoreLab
  cases labCategory ct with
  | none => simp
  | some lab_cat =>
    cases labPreferencesForCareer tc with
    | none => simp
    | some lab_pref =>
      simp only
      split
      · intro hm
        simp only [List.mem_singleton] at hm
        refine absurd hm.symm (ne_target_of_head _ _ ?_ ?_)
        · rw [strHead_append _ _ (strToList_append_ne_nil _ _
            (strToList_append_ne_nil _ _ (strToList_append_ne_nil _ _ (by decide))))]
          rw [strHead_append _ _ (strToList_append_ne_nil _ _
            (strToList_append_ne_nil _ _ (by decide)))]
          rw [strHead_append _ _ (strToList_append_ne_nil _ _ (by decide))]
          rw [strHead_append _ _ (by decide)]
          decide
        · exact strToList_append_ne_nil _ _ (strToList_append_ne_nil _ _
            (strToList_append_ne_nil _ _ (strToList_append_ne_nil _ _ (by decide))))
      · simp

theorem target_notin_scoreSemester (sp : Option (List Int)) (cs : List Int) :
    "Wajib Program Studi (priority)" ∉ (scoreSemester sp cs).2 := by
  unfold scoreSemester
  cases sp with
  | none => simp
  | some l =>
    simp only
    split
    · split
      · intro hm
        simp only [List.mem_singleton] at hm
        exact absurd hm.symm (ne_target_of_head _ _ (by decide) (by decide))
      · simp
    · intro hm
      simp only [List.mem_singleton] at hm
      exact absurd hm (by decide)

theorem scoreWajib_nil_of_not_wajib (ct : String)
    (h : pyIn "wajib" ct = false) : (scoreWajib ct).2 = [] := by
  unfold scoreWajib
  rw [wajibBonus_false_of_not_wajib ct h]
  rfl

theorem buildRecord_reason_no_target (a : RecArgs) (sp : Option (List Int))
    (c : Course) (prereqs : List Prereq)
    (hw : pyIn "wajib" (pyLower (c.type.getD "")) = false) :
    "Wajib Program Studi (priority)" ∉ (buildRecord a sp c prereqs).reason := by
  intro hm
  unfold buildRecord at hm
  simp only [List.mem_append] at hm
  rcases hm with ((((((hm | hm) | hm) | hm) | hm) | hm) | hm) | hm
  · exact target_notin_scorePrereqSat _ _ hm
  · exact target_notin_scoreCoreq _ _ hm
  · exact target_notin_scoreInterest _ hm
  · exact target_notin_scoreCareer _ _ hm
  · exact target_notin_scoreSksPref _ _ hm
  · exact target_notin_scoreLab _ _ hm
  · exact target_notin_scoreSemester _ _ hm
  · rw [scoreWajib_nil_of_not_wajib _ hw] at hm
    simp at hm

theorem charListLe_total (a b : List Char) :
    charListLe a b = true ∨ charListLe b a = true := by
  induction a generalizing b with
  | nil => exact Or.inl rfl
  | cons x xs ih =>
    cases b with
    | nil => exact Or.inr rfl
    | cons y ys =>
      by_cases hxy : x = y
      · subst hxy
        rcases ih ys with h | h
        · left; simp [charListLe, h]
        · right; simp [charListLe, h]
      · rcases lt_or_gt_of_ne hxy with h | h
        · left; simp [charListLe, hxy, h]
        · right; simp [charListLe, Ne.symm hxy, h]

theorem charListLe_trans (a b c : List Char) (hab : charListLe a b = true)
    (hbc : charListLe b c = true) : charListLe a c = true := by
  induction a generalizing b c with
  | nil => rfl
  | cons x xs ih =>
    cases b with
    | nil => simp [charListLe] at hab
    | cons y ys =>
      cases c with
      | nil => simp [charListLe] at hbc
      | cons z zs =>
        by_cases hxy : x = y
        · subst hxy
          by_cases hyz : x = z
          · subst hyz
            simp only [charListLe, if_pos rfl] at hab hbc ⊢
            exact ih ys zs hab hbc
          · simp only [charListLe, if_pos rfl] at hab
            simp only [charListLe, if_neg hyz] at hbc ⊢
            exact hbc
        · by_cases hyz : y = z
          · subst hyz
            simp only [charListLe, if_neg hxy] at hab ⊢
            exact hab
          · simp only [charListLe, if_neg hxy, decide_eq_true_eq] at hab
            simp only [charListLe, if_neg hyz, decide_eq_true_eq] at hbc
            have hxz : x < z := lt_trans hab hbc
            simp [charListLe, ne_of_lt hxz, hxz]

theorem strLe_total (a b : String) : strLe a b = true ∨ strLe b a = true :=
  charListLe_total a.toList b.toList

theorem strLe_trans (a b c : String) (h1 : strLe a b = true)
    (h2 : strLe b c = true) : strLe a c = true :=
  charListLe_trans a.toList b.toList c.toList h1 h2

theorem recKeyLe_total (x y : RecRecord) :
    recKeyLe x y = true ∨ recKeyLe y x = true := by
  unfold recKeyLe
  simp only [Bool.or_eq_true, Bool.and_eq_true, decide_eq_true_eq, beq_iff_eq]
  rcases lt_trichotomy x.score y.score with h | h | h
  · exact Or.inr (Or.inl h)
  · rcases lt_trichotomy (x.sks.getD 0) (y.sks.getD 0) with h2 | h2 | h2
    · exact Or.inl (Or.inr ⟨h, Or.inl h2⟩)
    · rcases strLe_total x.course_code y.course_code with h3 | h3
      · exact Or.inl (Or.inr ⟨h, Or.inr ⟨h2, h3⟩⟩)
      · exact Or.inr (Or.inr ⟨h.symm, Or.inr ⟨h2.symm, h3⟩⟩)
    · exact Or.inr (Or.inr ⟨h.symm, Or.inl h2⟩)
  · exact Or.inl (Or.inl h)

theorem recKeyLe_trans (x y z : RecRecord) (h1 : recKeyLe x y = true)
    (h2 : recKeyLe y z = true) : recKeyLe x z = true := by
  unfold recKeyLe at h1 h2 ⊢
  simp only [Bool.or_eq_true, Bool.and_eq_true, decide_eq_true_eq, beq_iff_eq] at h1 h2 ⊢
  rcases h1 with h1 | ⟨he1, h1⟩
  · rcases h2 with h2 | ⟨he2, h2⟩
    · exact Or.inl (lt_trans h2 h1)
    · exact Or.inl (he2 ▸ h1)
  · rcases h2 with h2 | ⟨he2, h2⟩
    · exact Or.inl (lt_of_lt_of_eq h2 he1.symm)
    · refine Or.inr ⟨he1.trans he2, ?_⟩
      rcases h1 with h1 | ⟨hs1, h1⟩
      · rcases h2 with h2 | ⟨hs2, h2⟩
        · exact Or.inl (lt_trans h1 h2)
        · exact Or.inl (lt_of_lt_of_eq h1 hs2)
      · rcases h2 with h2 | ⟨hs2, h2⟩
        · exact Or.inl (lt_of_eq_of_lt hs1 h2)
        · exact Or.inr ⟨hs1.trans hs2, strLe_trans _ _ _ h1 h2⟩

/-- C3: the single-term recommender output is sorted under the source key
order (score descending, then SKS ascending, then course code ascending),
holds at most `top_n` records (truncation to the first `top_n` of the sorted
survivor list), and is a pure function of its input: identical inputs give
the identical ordered list. -/
theorem c3_recommender_sorted_truncated_deterministic (a : RecArgs) :
    (recommendCourses a).Pairwise (fun x y => recKeyLe x y = true) ∧
    (recommendCourses a).length ≤ a.top_n ∧
    (∀ b : RecArgs, a = b → recommendCourses a = recommendCourses b) := by
  refine ⟨?_, ?_, fun b h => h ▸ rfl⟩
  · unfold recommendCourses
    exact List.Pairwise.sublist (List.take_sublist _ _)
      (pairwise_isortBy recKeyLe recKeyLe_total recKeyLe_trans _)
  · unfold recommendCourses
    exact List.length_take_le _ _

/-- Witness for C3 at a concrete input. -/
theorem c3_recommender_sorted_truncated_deterministic_witness :
    recommendCourses recArgsSample = recommendCourses recArgsSample ∧
    (recommendCourses recArgsSample).length ≤ 3 :=
  ⟨(c3_recommender_sorted_truncated_deterministic recArgsSample).2.2 recArgsSample rfl,
   (c3_recommender_sorted_truncated_deterministic recArgsSample).2.1⟩

/-- C6: every score returned by the single-term recommender is non-negative,
and the planner scorer gives 0 to a course with no matching contribution
(no interest match, no career relevance, no lab-preference alignment). -/
theorem c6_scores_nonneg_and_zero :
    (∀ (a : RecArgs), ∀ r ∈ recommendCourses a, 0 ≤ r.score) ∧
    (∀ (interests : List String) (career : Option String) (c : Course),
      matchesInterest c interests = 0 →
      careerRelevance c career = false →
      (∀ lab_cat lab_pref, labCategory c.type = some lab_cat →
        labPreferencesForCareer career = some lab_pref → lab_cat ∉ lab_pref) →
      plannerScore interests career c = 0) := by
  constructor
  · intro a r hr
    obtain ⟨c, _, he⟩ := mem_recommendCourses a r hr
    obtain ⟨_, _, _, prereqs, _, _, hbr⟩ := evalCourse_some a _ c r he
    rw [hbr]
    exact buildRecord_score_nonneg a _ c prereqs
  · intro interests career c h1 h2 h3
    unfold plannerScore
    rw [h1]
    cases hl1 : labCategory c.type with
    | none =>
      cases career with
      | none => simp
      | some cg =>
        by_cases hcg : cg = ""
        · simp [hcg]
        · simp [hcg, h2]
    | some lab_cat =>
      cases hl2 : labPreferencesForCareer career with
      | none =>
        cases career with
        | none => simp
        | some cg =>
          by_cases hcg : cg = ""
          · simp [hcg]
          · simp [hcg, h2]
      | some lab_pref =>
        have hnm : lab_cat ∉ lab_pref := h3 lab_cat lab_pref hl1 hl2
        cases career with
        | none => simp [hnm]
        | some cg =>
          by_cases hcg : cg = ""
          · simp [hcg, hnm]
          · simp [hcg, h2, hnm]

/-- Witness for C6 at concrete inputs. -/
theorem c6_scores_nonneg_and_zero_witness :
    0 ≤ ((recommendCourses recArgsSample).headD defaultRecRecord).score ∧
    plannerScore [] none sampleElective = 0 :=
  ⟨c6_scores_nonneg_and_zero.1 recArgsSample _ (by decide),
   c6_scores_nonneg_and_zero.2 [] none sampleElective (by decide) (by decide)
     (fun lab_cat lab_pref _ hp => by simp [labPreferencesForCareer] at hp)⟩

/-- C4: a course with no prerequisite-table entry, or an empty prerequisite
list, never appears in the single-term recommender output; the planner
candidate check treats both situations as no prerequisites, and the planner
does include such a course on a concrete input (course EL1 has no rule entry
and is scheduled). -/
theorem c4_prereq_rule_requirement :
    (∀ (a : RecArgs) (k : String),
      (lookupAssoc a.prereq k = none ∨ lookupAssoc a.prereq k = some []) →
      ∀ r ∈ recommendCourses a, r.course_code ≠ k) ∧
    (∀ (prereq : List (String × List Prereq)) (code : String) (taken : List String),
      (lookupAssoc prereq code = none ∨ lookupAssoc prereq code = some []) →
      prereqOk prereq code taken = true) ∧
    (lookupAssoc planArgsFree.prereq "EL1" = none ∧
     (planUntilGraduationAstar planArgsFree).schedule.any
       (fun e => e.courses.any (fun c => c.course_code == "EL1")) = true) := by
  refine ⟨?_, ?_, by decide, by decide⟩
  · intro a k hk r hr hck
    obtain ⟨c, _, he⟩ := mem_recommendCourses a r hr
    obtain ⟨_, _, _, prereqs, hlook, hne, hbr⟩ := evalCourse_some a _ c r he
    have hcode : r.course_code = c.course_code := by rw [hbr]; rfl
    rw [hck] at hcode
    rw [← hcode] at hlook
    rcases hk with hk | hk
    · exact absurd (hk.symm.trans hlook) (by simp)
    · have : ([] : List Prereq) = prereqs := by
        have := hk.symm.trans hlook
        simpa using this
      rw [← this] at hne
      simp at hne
  · intro prereq code taken hk
    unfold prereqOk
    rcases hk with hk | hk
    · rw [hk]
    · rw [hk]
      rfl

/-- Witness for C4 at concrete inputs. -/
theorem c4_prereq_rule_requirement_witness :
    ((recommendCourses recArgsSample).headD defaultRecRecord).course_code ≠ "ZZZ" ∧
    prereqOk [] "X" [] = true :=
  ⟨c4_prereq_rule_requirement.1 recArgsSample "ZZZ" (Or.inl (by decide)) _ (by decide),
   c4_prereq_rule_requirement.2.1 [] "X" [] (Or.inl (by decide))⟩

/-- C10: the `Wajib Program Studi` priority bonus of the recommender is
unreachable: no returned record carries its reason string, because every
course whose type label contains the mandatory marker wajib is rejected by
the elective filter, and a type label without wajib cannot trigger the
bonus condition. -/
theorem c10_wajib_priority_bonus_unreachable :
    (∀ (a : RecArgs), ∀ r ∈ recommendCourses a,
      "Wajib Program Studi (priority)" ∉ r.reason) ∧
    (∀ ct : String, pyIn "wajib" ct = false → wajibPriorityBonusApplies ct = false) := by
  constructor
  · intro a r hr
    obtain ⟨c, _, he⟩ := mem_recommendCourses a r hr
    obtain ⟨_, _, hw, prereqs, _, _, hbr⟩ := evalCourse_some a _ c r he
    rw [hbr]
    exact buildRecord_reason_no_target a _ c prereqs hw
  · exact wajibBonus_false_of_not_wajib

/-- Witness for C10 at concrete inputs. -/
theorem c10_wajib_priority_bonus_unreachable_witness :
    "Wajib Program Studi (priority)" ∉
      ((recommendCourses recArgsSample).headD defaultRecRecord).reason ∧
    wajibPriorityBonusApplies "pilihan" = false :=
  ⟨c10_wajib_priority_bonus_unreachable.1 recArgsSample _ (by decide),
   c10_wajib_priority_bonus_unreachable.2 "pilihan" (by decide)⟩

/-- C1: the A* planner schedules courses the student has already taken: on
the concrete input whose taken set is exactly the elective EL1, the
returned schedule still contains EL1 (the candidate filter only removes
courses already chosen inside the plan, never the taken set). -/
theorem c1_planner_schedules_taken_course :
    "EL1" ∈ planArgsTaken.courses_taken ∧
    (planUntilGraduationAstar planArgsTaken).schedule.any
      (fun e => e.courses.any (fun c => c.course_code == "EL1")) = true :=
  ⟨by decide, by decide⟩

theorem mem_range'_iff (s n m : Nat) : m ∈ List.range' s n ↔ s ≤ m ∧ m < s + n := by
  rw [List.mem_range']
  constructor
  · rintro ⟨i, hi, rfl⟩
    omega
  · rintro ⟨h1, h2⟩
    exact ⟨m - s, by omega, by omega⟩

theorem composeSchedule_map_semester (a : PlanArgs) (m : List (Nat × List Course)) :
    (composeSchedule a m).map ScheduleEntry.semester =
      List.range' (a.current_semester + 1) (8 - (a.current_semester + 1)) := by
  unfold composeSchedule
  rw [List.map_map]
  have : (ScheduleEntry.semester ∘ fun sem =>
      ({ semester := sem
         courses := (lookupAssoc m sem).getD []
         sks := ((lookupAssoc m sem).getD []).foldl (fun t c => t + pySks c) 0 }
        : ScheduleEntry)) = id := by
    funext sem
    rfl
  rw [this, List.map_id]

theorem composeSchedule_entry (a : PlanArgs) (m : List (Nat × List Course))
    (e : ScheduleEntry) (he : e ∈ composeSchedule a m) :
    a.current_semester + 1 ≤ e.semester ∧ e.semester < 8 ∧
    e.courses = (lookupAssoc m e.semester).getD [] ∧
    e.sks = ((lookupAssoc m e.semester).getD []).foldl (fun t c => t + pySks c) 0 := by
  unfold composeSchedule at he
  rcases List.mem_map.mp he with ⟨sem, hsem, rfl⟩
  have hb := (mem_range'_iff _ _ _).mp hsem
  refine ⟨?_, ?_, rfl, rfl⟩
  · show a.current_semester + 1 ≤ sem
    exact hb.1
  · show sem < 8
    omega

/-- C5 (amended): the returned schedule consists of exactly one entry per
term from current_semester+1 through 7, in increasing order, so its maximum
term is 7, one before the graduation term 8 at which the search stops; in
particular no course is ever scheduled in a term earlier than
current_semester+1 (and none in a term 8 or later). -/
theorem c5_schedule_covers_terms_up_to_seven (a : PlanArgs) :
    (planUntilGraduationAstar a).schedule.map ScheduleEntry.semester =
      List.range' (a.current_semester + 1) (8 - (a.current_semester + 1)) ∧
    (∀ e ∈ (planUntilGraduationAstar a).schedule,
      a.current_semester + 1 ≤ e.semester ∧ e.semester ≤ 7) := by
  constructor
  · exact composeSchedule_map_semester a _
  · intro e he
    have hb := composeSchedule_entry a _ e he
    exact ⟨hb.1, by omega⟩

/-- Witness for C5 (amended) at a concrete input. -/
theorem c5_schedule_covers_terms_up_to_seven_witness :
    (planUntilGraduationAstar planArgsFree).schedule.map ScheduleEntry.semester =
      List.range' 7 1 ∧
    ((planUntilGraduationAstar planArgsFree).schedule.headD defaultScheduleEntry).semester ≤ 7 :=
  ⟨(c5_schedule_covers_terms_up_to_seven planArgsFree).1,
   ((c5_schedule_covers_terms_up_to_seven planArgsFree).2 _ (by decide)).2⟩

/-- Counterexample to C5 as stated: on a concrete input the search does
reach a state with term 8 (so the expansion budget of 20000 is not the
cause: only 3 expansions happen), yet the returned schedule's only term is
7 and no schedule entry has a term number 8 or greater. -/
theorem c5_counterexample_schedule_never_reaches_8 :
    (planUntilGraduationAstar planArgsFree).schedule.map ScheduleEntry.semester = [7] ∧
    (planUntilGraduationAstar planArgsFree).schedule.all
      (fun e => decide (e.semester < 8)) = true ∧
    (runSearch planArgsFree).gCost.any (fun p => decide (8 ≤ p.1.sem)) = true ∧
    (runSearch planArgsFree).expansions = 3 :=
  ⟨by decide, by decide, by decide, by decide⟩

/-- C9: every term from current_semester+1 through 7 appears in the
returned schedule (the call returns a full normally-shaped plan), and a term
entry with no selected courses carries total credits 0. -/
theorem c9_empty_terms_are_valid_output (a : PlanArgs) :
    (planUntilGraduationAstar a).schedule.length = 8 - (a.current_semester + 1) ∧
    (∀ s : Nat, a.current_semester + 1 ≤ s → s < 8 →
      ∃ e ∈ (planUntilGraduationAstar a).schedule, e.semester = s) ∧
    (∀ e ∈ (planUntilGraduationAstar a).schedule, e.courses = [] → e.sks = 0) := by
  refine ⟨?_, ?_, ?_⟩
  · show (composeSchedule a _).length = _
    unfold composeSchedule
    rw [List.length_map, List.length_range']
  · intro s h1 h2
    show ∃ e ∈ composeSchedule a _, e.semester = s
    unfold composeSchedule
    exact ⟨_, List.mem_map_of_mem _ ((mem_range'_iff _ _ _).mpr ⟨h1, by omega⟩), rfl⟩
  · intro e he hc
    have hb := composeSchedule_entry a _ e he
    rw [hb.2.2.1] at hc
    rw [hb.2.2.2, hc]
    rfl

/-- Witness for C9 at concrete inputs (the second conjunct is exercised on
the zero-budget run, whose single term has no selected courses). -/
theorem c9_empty_terms_are_valid_output_witness :
    (planUntilGraduationAstar planArgsFree).schedule.length =
      8 - (planArgsFree.current_semester + 1) ∧
    ((planUntilGraduationAstar planArgsNoBudget).schedule.headD
      defaultScheduleEntry).sks = 0 :=
  ⟨(c9_empty_terms_are_valid_output planArgsFree).1,
   (c9_empty_terms_are_valid_output planArgsNoBudget).2.2 _ (by decide) (by decide)⟩

theorem addCandidate_expansions (a : PlanArgs) (st : St) (fr : Frontier) (c : Course) :
    (addCandidate a st fr c).expansions = fr.expansions := by
  unfold addCandidate
  dsimp only
  repeat' split
  all_goals rfl

theorem foldl_addCandidate_expansions (a : PlanArgs) (st : St)
    (cands : List Course) (fr : Frontier) :
    (cands.foldl (addCandidate a st) fr).expansions = fr.expansions := by
  induction cands generalizing fr with
  | nil => rfl
  | cons c cs ih => rw [List.foldl_cons, ih, addCandidate_expansions]

theorem advanceStep_expansions (a : PlanArgs) (st : St) (fr : Frontier) :
    (advanceStep a st fr).expansions = fr.expansions := by
  unfold advanceStep
  dsimp only
  repeat' split
  all_goals rfl

theorem expandState_expansions (a : PlanArgs) (st : St) (fr : Frontier) :
    (expandState a st fr).expansions = fr.expansions := by
  unfold expandState
  rw [advanceStep_expansions, foldl_addCandidate_expansions]

theorem astarLoop_expansions (a : PlanArgs) (fuel : Nat) (fr : Frontier) :
    (astarLoop a fuel fr).expansions ≤ fr.expansions + fuel := by
  induction fuel generalizing fr with
  | zero => simp [astarLoop]
  | succ n ih =>
    unfold astarLoop
    cases hp : heappop fr.heap with
    | none =>
      show fr.expansions ≤ fr.expansions + (n + 1)
      omega
    | some pe =>
      obtain ⟨e, heap'⟩ := pe
      simp only
      split
      · show fr.expansions + 1 ≤ fr.expansions + (n + 1)
        omega
      · have h1 := ih (expandState a e.2
          { fr with heap := heap', expansions := fr.expansions + 1 })
        rw [expandState_expansions] at h1
        have h2 : ({ fr with heap := heap', expansions := fr.expansions + 1 }
            : Frontier).expansions = fr.expansions + 1 := rfl
        rw [h2] at h1
        omega

theorem addCandidate_gCost_ne_nil (a : PlanArgs) (st : St) (fr : Frontier) (c : Course)
    (h : fr.gCost ≠ []) : (addCandidate a st fr c).gCost ≠ [] := by
  unfold addCandidate
  dsimp only
  repeat' split
  all_goals first
    | exact h
    | exact insertAssoc_ne_nil _ _ _

theorem foldl_addCandidate_gCost_ne_nil (a : PlanArgs) (st : St)
    (cands : List Course) (fr : Frontier) (h : fr.gCost ≠ []) :
    (cands.foldl (addCandidate a st) fr).gCost ≠ [] := by
  induction cands generalizing fr with
  | nil => exact h
  | cons c cs ih => exact ih _ (addCandidate_gCost_ne_nil a st fr c h)

theorem advanceStep_gCost_ne_nil (a : PlanArgs) (st : St) (fr : Frontier)
    (h : fr.gCost ≠ []) : (advanceStep a st fr).gCost ≠ [] := by
  unfold advanceStep
  dsimp only
  repeat' split
  all_goals first
    | exact h
    | exact insertAssoc_ne_nil _ _ _

theorem expandState_gCost_ne_nil (a : PlanArgs) (st : St) (fr : Frontier)
    (h : fr.gCost ≠ []) : (expandState a st fr).gCost ≠ [] := by
  unfold expandState
  exact advanceStep_gCost_ne_nil a st _ (foldl_addCandidate_gCost_ne_nil a st _ fr h)

theorem astarLoop_gCost_ne_nil (a : PlanArgs) (fuel : Nat) (fr : Frontier)
    (h : fr.gCost ≠ []) : (astarLoop a fuel fr).gCost ≠ [] := by
  induction fuel generalizing fr with
  | zero => exact h
  | succ n ih =>
    unfold astarLoop
    cases hp : heappop fr.heap with
    | none => exact h
    | some pe =>
      obtain ⟨e, heap'⟩ := pe
      simp only
      split
      · exact h
      · exact ih _ (expandState_gCost_ne_nil a _ _ h)

theorem runSearch_gCost_ne_nil (a : PlanArgs) : (runSearch a).gCost ≠ [] := by
  unfold runSearch
  exact astarLoop_gCost_ne_nil a _ _ (by simp [initFrontier])

theorem foldl_min_mem (lt : α → α → Bool) (ys : List α) (b : α) :
    ys.foldl (fun b a => if lt a b then a else b) b = b ∨
    ys.foldl (fun b a => if lt a b then a else b) b ∈ ys := by
  induction ys generalizing b with
  | nil => exact Or.inl rfl
  | cons y ys ih =>
    rw [List.foldl_cons]
    rcases ih (if lt y b then y else b) with h | h
    · rw [h]
      by_cases hy : lt y b = true
      · rw [if_pos hy]
        exact Or.inr (List.mem_cons_self _ _)
      · rw [if_neg hy]
        exact Or.inl rfl
    · exact Or.inr (List.mem_cons_of_mem _ h)

theorem foldl_min_le (lt : α → α → Bool)
    (htrans : ∀ x y z, lt x y = true → lt y z = true → lt x z = true)
    (ys : List α) (b : α) :
    ys.foldl (fun b a => if lt a b then a else b) b = b ∨
    lt (ys.foldl (fun b a => if lt a b then a else b) b) b = true := by
  induction ys generalizing b with
  | nil => exact Or.inl rfl
  | cons y ys ih =>
    rw [List.foldl_cons]
    by_cases hy : lt y b = true
    · rw [if_pos hy]
      rcases ih y with h | h
      · rw [h]; exact Or.inr hy
      · exact Or.inr (htrans _ _ _ h hy)
    · rw [if_neg hy]
      exact ih b

theorem foldl_min_notlt (lt : α → α → Bool)
    (htrans : ∀ x y z, lt x y = true → lt y z = true → lt x z = true)
    (hasym : ∀ x y, lt x y = true → lt y x = false)
    (ys : List α) (b : α) (y : α) (hy : y ∈ ys) :
    lt y (ys.foldl (fun b a => if lt a b then a else b) b) = false := by
  induction ys generalizing b with
  | nil => simp at hy
  | cons z zs ih =>
    rw [List.foldl_cons]
    rcases List.mem_cons.mp hy with rfl | hy
    · by_cases hz : lt y b = true
      · rw [if_pos hz]
        rcases foldl_min_le lt htrans zs y with h | h
        · rw [h]
          cases hyy : lt y y
          · rfl
          · exact absurd (hasym y y hyy) (by simp [hyy])
        · exact hasym _ _ h
      · rw [if_neg hz]
        rcases foldl_min_le lt htrans zs b with h | h
        · rw [h]
          cases hyb : lt y b
          · rfl
          · exact absurd hyb (by simp [hz])
        · cases hyf : lt y (zs.foldl (fun b a => if lt a b then a else b) b)
          · rfl
          · exact absurd (htrans _ _ _ hyf h) (by simp [hz])
    · by_cases hz : lt z b = true
      · rw [if_pos hz]
        exact ih z hy
      · rw [if_neg hz]
        exact ih b hy

theorem pyMinBy_some_iff (lt : α → α → Bool) (l : List α) :
    (pyMinBy lt l).isSome = true ↔ l ≠ [] := by
  cases l with
  | nil => simp [pyMinBy]
  | cons x xs => simp [pyMinBy]

theorem pyMinBy_mem (lt : α → α → Bool) (l : List α) (m : α)
    (h : pyMinBy lt l = some m) : m ∈ l := by
  cases l with
  | nil => simp [pyMinBy] at h
  | cons x xs =>
    simp only [pyMinBy, Option.some_inj] at h
    subst h
    rcases foldl_min_mem lt xs x with h | h
    · rw [h]; exact List.mem_cons_self _ _
    · exact List.mem_cons_of_mem _ h

theorem pyMinBy_minimal (lt : α → α → Bool)
    (htrans : ∀ x y z, lt x y = true → lt y z = true → lt x z = true)
    (hasym : ∀ x y, lt x y = true → lt y x = false)
    (l : List α) (m : α) (h : pyMinBy lt l = some m) :
    ∀ y ∈ l, lt y m = false := by
  cases l with
  | nil => simp [pyMinBy] at h
  | cons x xs =>
    simp only [pyMinBy, Option.some_inj] at h
    subst h
    intro y hy
    rcases List.mem_cons.mp hy with rfl | hy
    · rcases foldl_min_le lt htrans xs y with h | h
      · rw [h]
        cases hyy : lt y y
        · rfl
        · exact absurd (hasym y y hyy) (by simp [hyy])
      · exact hasym _ _ h
    · exact foldl_min_notlt lt htrans hasym xs x y hy

theorem selKeyLt_trans (x y z : Int × Int) (h1 : selKeyLt x y = true)
    (h2 : selKeyLt y z = true) : selKeyLt x z = true := by
  unfold selKeyLt at h1 h2 ⊢
  simp only [Bool.or_eq_true, Bool.and_eq_true, decide_eq_true_eq, beq_iff_eq] at h1 h2 ⊢
  omega

theorem selKeyLt_asym (x y : Int × Int) (h : selKeyLt x y = true) :
    selKeyLt y x = false := by
  unfold selKeyLt at h ⊢
  simp only [Bool.or_eq_true, Bool.and_eq_true, decide_eq_true_eq, beq_iff_eq] at h
  simp only [Bool.or_eq_false_iff, Bool.and_eq_false_iff, decide_eq_false_iff_not,
    not_lt, beq_eq_false_iff_ne, ne_eq]
  omega

/-- C8: the planner search performs at most `max_expansions` state
expansions and always returns normally: the cost table is never empty, and
when no explored state reached term 8 (budget or frontier exhausted first)
the returned base state is the recorded state with the greatest term
reached, tie-broken by minimal accumulated cost (no strictly smaller
`(-term, cost)` key exists in the table, and the first such minimum is
chosen, as Python min does). -/
theorem selectBest_fallback (a : PlanArgs) (gCost : List (St × Int))
    (hempty : gCost.filter (fun p => decide (8 ≤ p.1.sem)) = []) (m : St)
    (hmb : pyMinBy (fun s t => selKeyLt (selKey gCost s) (selKey gCost t))
      (gCost.map (fun p => p.1)) = some m) :
    selectBest a gCost = m := by
  unfold selectBest
  rw [hempty]
  show (match pyMinBy (fun s t => selKeyLt (selKey gCost s) (selKey gCost t))
      (gCost.map (fun p => p.1)) with
    | some s => s
    | none => (⟨a.current_semester + 1, 0, [], []⟩ : St)) = m
  rw [hmb]

theorem c8_budget_and_fallback (a : PlanArgs) :
    (runSearch a).expansions ≤ a.max_expansions ∧
    (runSearch a).gCost ≠ [] ∧
    ((runSearch a).gCost.filter (fun p => decide (8 ≤ p.1.sem)) = [] →
      selectBest a (runSearch a).gCost ∈ (runSearch a).gCost.map (fun p => p.1) ∧
      ∀ s ∈ (runSearch a).gCost.map (fun p => p.1),
        selKeyLt (selKey (runSearch a).gCost s)
          (selKey (runSearch a).gCost (selectBest a (runSearch a).gCost)) = false) := by
  refine ⟨?_, runSearch_gCost_ne_nil a, ?_⟩
  · have h := astarLoop_expansions a a.max_expansions (initFrontier a)
    unfold runSearch
    simpa [initFrontier] using h
  · intro hempty
    have hkeys : (runSearch a).gCost.map (fun p => p.1) ≠ [] := by
      intro hk
      exact runSearch_gCost_ne_nil a (List.map_eq_nil_iff.mp hk)
    cases hmb : pyMinBy (fun s t => selKeyLt (selKey (runSearch a).gCost s)
        (selKey (runSearch a).gCost t)) ((runSearch a).gCost.map (fun p => p.1)) with
    | none =>
      have hsome := (pyMinBy_some_iff (fun s t => selKeyLt (selKey (runSearch a).gCost s)
        (selKey (runSearch a).gCost t)) ((runSearch a).gCost.map (fun p => p.1))).mpr hkeys
      rw [hmb] at hsome
      simp at hsome
    | some m =>
      rw [selectBest_fallback a _ hempty m hmb]
      constructor
      · exact pyMinBy_mem _ _ _ hmb
      · intro s hs
        refine pyMinBy_minimal _ ?_ ?_ _ m hmb s hs
        · intro x y z hx hy
          exact selKeyLt_trans _ _ _ hx hy
        · intro x y hx
          exact selKeyLt_asym _ _ hx

/-- Witness for C8 on the zero-budget input: no goal state is recorded, yet
a base state is still selected from the non-empty table, and no expansions
happen. -/
theorem c8_budget_and_fallback_witness :
    selectBest planArgsNoBudget (runSearch planArgsNoBudget).gCost ∈
      (runSearch planArgsNoBudget).gCost.map (fun p => p.1) ∧
    (runSearch planArgsNoBudget).expansions ≤ planArgsNoBudget.max_expansions :=
  ⟨((c8_budget_and_fallback planArgsNoBudget).2.2 (by decide)).1,
   (c8_budget_and_fallback planArgsNoBudget).1⟩

theorem lookupAssoc_mem_self [BEq κ] [LawfulBEq κ] (d : List (κ × ν)) (k : κ) (v : ν)
    (h : lookupAssoc d k = some v) : (k, v) ∈ d := by
  unfold lookupAssoc at h
  cases hf : d.find? (fun p => p.1 == k) with
  | none => rw [hf] at h; simp at h
  | some p =>
    rw [hf] at h
    simp only [Option.map_some'] at h
    have hm := List.mem_of_find?_eq_some hf
    have hpred := List.find?_some hf
    have hk : p.1 = k := by simpa using hpred
    cases p with
    | mk k2 v2 =>
      have hv : v2 = v := by simpa using h
      simp only at hk
      subst hk
      subst hv
      exact hm

theorem find?_eq_of_nodup_key (f : α → κ) [DecidableEq κ] (l : List α)
    (hnd : (l.map f).Nodup) (c : α) (hc : c ∈ l) :
    l.find? (fun x => f x == f c) = some c := by
  induction l with
  | nil => simp at hc
  | cons a as ih =>
    rw [List.map_cons, List.nodup_cons] at hnd
    rcases List.mem_cons.mp hc with rfl | hc
    · rw [List.find?_cons_of_pos _ (by simp)]
    · have hne : (f a == f c) = false := by
        simp only [beq_eq_false_iff_ne, ne_eq]
        intro he
        exact hnd.1 (he ▸ List.mem_map_of_mem f hc)
      rw [List.find?_cons_of_neg _ (by simp [hne])]
      exact ih hnd.2 hc

theorem courseByCode_eq (a : PlanArgs)
    (hU : ((a.courses.filter (fun c => c.course_code != "")).map Course.course_code).Nodup)
    (c : Course) (hc : c ∈ a.courses) (hcode : ¬ c.course_code = "") :
    courseByCode a.courses c.course_code = some c := by
  unfold courseByCode
  have hcf : c ∈ a.courses.filter (fun c => c.course_code != "") :=
    List.mem_filter.mpr ⟨hc, by simpa using hcode⟩
  have hrev : c ∈ (a.courses.filter (fun c => c.course_code != "")).reverse :=
    List.mem_reverse.mpr hcf
  have hndrev :
      (((a.courses.filter (fun c => c.course_code != "")).reverse).map
        Course.course_code).Nodup := by
    rw [List.map_reverse]
    exact List.nodup_reverse.mpr hU
  exact find?_eq_of_nodup_key Course.course_code _ hndrev c hrev

theorem candidateCoursesForSemester_subset (a : PlanArgs) (sem : Nat)
    (takenPrev : List String) (c : Course)
    (hc : c ∈ candidateCoursesForSemester a sem takenPrev) : c ∈ a.courses :=
  (List.mem_filter.mp hc).1

theorem invCF_addCandidate (a : PlanArgs)
    (hU : ((a.courses.filter (fun c => c.course_code != "")).map Course.course_code).Nodup)
    (st : St) (fr : Frontier) (c : Course) (hc : c ∈ a.courses)
    (hinv : InvCF a fr.cameFrom) : InvCF a (addCandidate a st fr c).cameFrom := by
  unfold addCandidate
  dsimp only
  split
  · exact hinv
  · rename_i hguard
    split
    · exact hinv
    · rename_i hcode
      split
      · intro e he
        rcases mem_insertAssoc _ _ _ e he with he | rfl
        · exact hinv e he
        · push_neg at hguard
          show ValidEdge a
            ⟨st.sem, st.used + (pySks c).toNat, st.prev, sinsertStr c.course_code st.cur⟩
            st (PAction.add c.course_code)
          refine ⟨c, courseByCode_eq a hU c hc hcode, by omega, ?_, rfl, ?_⟩
          · have := hguard.2
            omega
          · show ((st.used + (pySks c).toNat : Nat) : Int) = (st.used : Int) + pySks c
            have h1 : 0 < pySks c := hguard.1
            push_cast [Int.toNat_of_nonneg (le_of_lt h1)]
            ring
      · exact hinv

theorem invCF_advanceStep (a : PlanArgs) (st : St) (fr : Frontier)
    (hinv : InvCF a fr.cameFrom) : InvCF a (advanceStep a st fr).cameFrom := by
  unfold advanceStep
  dsimp only
  split
  · intro e he
    rcases mem_insertAssoc _ _ _ e he with he | rfl
    · exact hinv e he
    · exact ⟨rfl, rfl⟩
  · exact hinv

theorem invCF_foldl_addCandidate (a : PlanArgs)
    (hU : ((a.courses.filter (fun c => c.course_code != "")).map Course.course_code).Nodup)
    (st : St) (cands : List Course) (fr : Frontier)
    (hsub : ∀ c ∈ cands, c ∈ a.courses)
    (hinv : InvCF a fr.cameFrom) :
    InvCF a (cands.foldl (addCandidate a st) fr).cameFrom := by
  induction cands generalizing fr with
  | nil => exact hinv
  | cons c cs ih =>
    rw [List.foldl_cons]
    exact ih _ (fun x hx => hsub x (List.mem_cons_of_mem c hx))
      (invCF_addCandidate a hU st fr c (hsub c (List.mem_cons_self c cs)) hinv)

theorem invCF_expandState (a : PlanArgs)
    (hU : ((a.courses.filter (fun c => c.course_code != "")).map Course.course_code).Nodup)
    (st : St) (fr : Frontier) (hinv : InvCF a fr.cameFrom) :
    InvCF a (expandState a st fr).cameFrom := by
  unfold expandState
  dsimp only
  refine invCF_advanceStep a st _ (invCF_foldl_addCandidate a hU st _ fr ?_ hinv)
  intro c hc
  have h1 : c ∈ isortBy (fun x y => decide (plannerScore a.interests a.career_goal y ≤
      plannerScore a.interests a.career_goal x))
      ((candidateCoursesForSemester a st.sem (a.courses_taken ++ st.prev)).filter
        (fun c => !(st.prev ++ st.cur).contains c.course_code)) := by
    split at hc
    · exact List.mem_of_mem_take hc
    · exact hc
  have h2 := mem_isortBy _ _ _ h1
  exact candidateCoursesForSemester_subset a st.sem _ c (List.mem_filter.mp h2).1

theorem invCF_astarLoop (a : PlanArgs)
    (hU : ((a.courses.filter (fun c => c.course_code != "")).map Course.course_code).Nodup)
    (fuel : Nat) (fr : Frontier) (hinv : InvCF a fr.cameFrom) :
    InvCF a (astarLoop a fuel fr).cameFrom := by
  induction fuel generalizing fr with
  | zero => exact hinv
  | succ n ih =>
    unfold astarLoop
    cases hp : heappop fr.heap with
    | none => exact hinv
    | some pe =>
      obtain ⟨e, heap'⟩ := pe
      simp only
      split
      · exact hinv
      · exact ih _ (invCF_expandState a hU _ _ hinv)

theorem invCF_runSearch (a : PlanArgs)
    (hU : ((a.courses.filter (fun c => c.course_code != "")).map Course.course_code).Nodup) :
    InvCF a (runSearch a).cameFrom := by
  unfold runSearch
  refine invCF_astarLoop a hU _ _ ?_
  intro e he
  simp [initFrontier] at he

theorem sumSAt_nil (a : PlanArgs) (s : Nat) : sumSAt a s [] = 0 := rfl

theorem sumSAt_append_one (a : PlanArgs) (s : Nat) (l : List (PAction × Nat))
    (x : PAction × Nat) :
    sumSAt a s (l ++ [x]) = sumSAt a s l + (if x.2 = s then actionWeight a x else 0) := by
  unfold sumSAt
  rw [List.map_append, List.sum_append]
  simp

theorem chainActions_succ (cf : List (St × (St × PAction))) (n : Nat) (node : St) :
    chainActions cf (n + 1) node =
      match lookupAssoc cf node with
      | none => []
      | some (p, act) => chainActions cf n p ++ [(act, p.sem)] := rfl

theorem chain_bound (a : PlanArgs) (cf : List (St × (St × PAction)))
    (hinv : InvCF a cf) (fuel : Nat) :
    ∀ node : St,
      (∀ s, node.sem < s → sumSAt a s (chainActions cf fuel node) = 0) ∧
      sumSAt a node.sem (chainActions cf fuel node) ≤ (node.used : Int) ∧
      (sumSAt a node.sem (chainActions cf fuel node) = 0 ∨
        (node.used : Int) ≤ capOfA a node.sem) ∧
      (∀ s, s < node.sem → sumSAt a s (chainActions cf fuel node) ≤ capOfA a s) := by
  induction fuel with
  | zero =>
    intro node
    refine ⟨fun s _ => rfl, ?_, Or.inl rfl, fun s _ => ?_⟩
    · show (0 : Int) ≤ (node.used : Int)
      positivity
    · show (0 : Int) ≤ capOfA a s
      exact capOf_nonneg _ _ _
  | succ n ih =>
    intro node
    rw [chainActions_succ]
    cases hlk : lookupAssoc cf node with
    | none =>
      refine ⟨fun s _ => rfl, ?_, Or.inl rfl, fun s _ => ?_⟩
      · show (0 : Int) ≤ (node.used : Int)
        positivity
      · show (0 : Int) ≤ capOfA a s
        exact capOf_nonneg _ _ _
    | some pa =>
      obtain ⟨p, act⟩ := pa
      have hedge : ValidEdge a node p act := hinv (node, (p, act)) (lookupAssoc_mem_self cf node (p, act) hlk)
      obtain ⟨h1, h2, h3, h4⟩ := ih p
      cases act with
      | advance =>
        obtain ⟨hsem, hused⟩ := hedge
        have hw : ∀ s, sumSAt a s (chainActions cf n p ++ [(PAction.advance, p.sem)]) =
            sumSAt a s (chainActions cf n p) := by
          intro s
          rw [sumSAt_append_one]
          simp [actionWeight]
        refine ⟨?_, ?_, ?_, ?_⟩
        · intro s hs
          rw [hw]
          exact h1 s (by omega)
        · rw [hw, hsem, h1 (p.sem + 1) (by omega), hused]
          norm_num
        · left
          rw [hw, hsem]
          exact h1 (p.sem + 1) (by omega)
        · intro s hs
          rw [hw]
          rcases Nat.lt_or_ge s p.sem with h | h
          · exact h4 s h
          · have hsp : s = p.sem := by omega
            subst hsp
            rcases h3 with h3 | h3
            · rw [h3]
              exact capOf_nonneg _ _ _
            · exact le_trans h2 h3
      | add code =>
        obtain ⟨c, hcbc, hsks, hcap, hsem, hused⟩ := hedge
        have hwval : actionWeight a (PAction.add code, p.sem) = pySks c := by
          show (courseByCode a.courses code).elim 0 pySks = pySks c
          rw [hcbc]
          rfl
        refine ⟨?_, ?_, ?_, ?_⟩
        · intro s hs
          rw [sumSAt_append_one]
          rw [hsem] at hs
          rw [h1 s hs, if_neg (by omega)]
          ring
        · rw [sumSAt_append_one, hsem, if_pos rfl, hwval, hused]
          have := h2
          omega
        · right
          rw [hused, hsem]
          exact hcap
        · intro s hs
          rw [sumSAt_append_one]
          rw [hsem] at hs
          rw [if_neg (by omega)]
          have := h4 s hs
          omega

theorem chain_le_cap (a : PlanArgs) (cf : List (St × (St × PAction)))
    (hinv : InvCF a cf) (fuel : Nat) (node : St) (s : Nat) :
    sumSAt a s (chainActions cf fuel node) ≤ capOfA a s := by
  obtain ⟨h1, h2, h3, h4⟩ := chain_bound a cf hinv fuel node
  rcases Nat.lt_trichotomy s node.sem with h | h | h
  · exact h4 s h
  · subst h
    rcases h3 with h3 | h3
    · rw [h3]
      exact capOf_nonneg _ _ _
    · exact le_trans h2 h3
  · rw [h1 s h]
    exact capOf_nonneg _ _ _

theorem chain_weight_nonneg (a : PlanArgs) (cf : List (St × (St × PAction)))
    (hinv : InvCF a cf) (fuel : Nat) :
    ∀ (node : St) (pa : PAction × Nat), pa ∈ chainActions cf fuel node →
      0 ≤ actionWeight a pa := by
  induction fuel with
  | zero => intro node pa hpa; simp [chainActions] at hpa
  | succ n ih =>
    intro node pa hpa
    rw [chainActions_succ] at hpa
    cases hlk : lookupAssoc cf node with
    | none => rw [hlk] at hpa; simp at hpa
    | some pq =>
      obtain ⟨p, act⟩ := pq
      rw [hlk] at hpa
      rcases List.mem_append.mp hpa with hpa | hpa
      · exact ih p pa hpa
      · have hedge : ValidEdge a node p act :=
          hinv (node, (p, act)) (lookupAssoc_mem_self cf node (p, act) hlk)
        have hpa2 : pa = (act, p.sem) := by simpa using hpa
        subst hpa2
        cases act with
        | advance => simp [actionWeight]
        | add code =>
          obtain ⟨c, hcbc, hsks, _⟩ := hedge
          have hwval : actionWeight a (PAction.add code, p.sem) = pySks c := by
            show (courseByCode a.courses code).elim 0 pySks = pySks c
            rw [hcbc]
            rfl
          rw [hwval]
          omega

theorem lookupAssoc_cons_pair (x : Nat) (v : List Course)
    (ps : List (Nat × List Course)) (k : Nat) :
    lookupAssoc ((x, v) :: ps) k = if x = k then some v else lookupAssoc ps k := by
  simp only [lookupAssoc, List.find?_cons]
  by_cases h : x = k
  · have hb : ((x, v).1 == k) = true := by simpa using h
    rw [hb, if_pos h]
    rfl
  · have hb : ((x, v).1 == k) = false := by simpa using h
    rw [hb, if_neg h]

theorem lookupAssoc_appendAt (m : List (Nat × List Course)) (k s : Nat) (c : Course) :
    lookupAssoc (appendAt m k c) s =
      if s = k then (lookupAssoc m s).map (fun l => l ++ [c])
      else lookupAssoc m s := by
  induction m with
  | nil =>
    show (none : Option (List Course)) = if s = k then Option.map _ none else _
    split <;> rfl
  | cons p ps ih =>
    obtain ⟨x, v⟩ := p
    rw [show appendAt ((x, v) :: ps) k c =
        (if (x == k) = true then (x, v ++ [c]) else (x, v)) :: appendAt ps k c from rfl]
    by_cases hpk : x = k
    · rw [if_pos (by simpa using hpk)]
      rw [lookupAssoc_cons_pair, lookupAssoc_cons_pair]
      by_cases hps : x = s
      · have hsk : s = k := by omega
        rw [if_pos hps, if_pos hsk, if_pos hps]
        rfl
      · have hsk : ¬ s = k := fun h => hps (by omega)
        rw [if_neg hps, if_neg hsk, if_neg hps, ih, if_neg hsk]
    · rw [if_neg (by simpa using hpk)]
      rw [lookupAssoc_cons_pair, lookupAssoc_cons_pair]
      by_cases hps : x = s
      · have hsk : ¬ s = k := fun h => hpk (by omega)
        rw [if_pos hps, if_neg hsk, if_pos hps]
      · by_cases hsk : s = k
        · rw [if_neg hps, if_pos hsk, if_neg hps, ih, if_pos hsk]
        · rw [if_neg hps, if_neg hsk, if_neg hps, ih, if_neg hsk]

theorem mapSumAt_appendAt (m : List (Nat × List Course)) (k s : Nat) (c : Course)
    (hw : 0 ≤ pySks c) :
    mapSumAt (appendAt m k c) s ≤ mapSumAt m s + (if s = k then pySks c else 0) := by
  unfold mapSumAt
  rw [lookupAssoc_appendAt]
  by_cases hsk : s = k
  · rw [if_pos hsk, if_pos hsk]
    cases hlm : lookupAssoc m s with
    | none =>
      simp only [Option.map_none', Option.getD_none]
      simpa using hw
    | some l =>
      simp only [Option.map_some', Option.getD_some]
      rw [List.foldl_append]
      exact le_refl _
  · rw [if_neg hsk, if_neg hsk]
    simp

theorem mapSumAt_init (r : List Nat) (s : Nat) :
    mapSumAt (r.map (fun x => (x, ([] : List Course)))) s = 0 := by
  unfold mapSumAt lookupAssoc
  induction r with
  | nil => rfl
  | cons x xs ih =>
    simp only [List.map_cons, List.find?]
    cases hb : ((x, ([] : List Course)).1 == s) with
    | false =>
      simp only [hb]
      exact ih
    | true =>
      simp only [hb]
      rfl

theorem recon_bound (a : PlanArgs) (startSem : Nat) (actions : List (PAction × Nat))
    (hw : ∀ pa ∈ actions, 0 ≤ actionWeight a pa) :
    ∀ (acc : List (Nat × List Course) × List String) (s : Nat),
      mapSumAt (actions.foldl (reconStep a startSem) acc).1 s ≤
        mapSumAt acc.1 s + sumSAt a s actions := by
  induction actions with
  | nil =>
    intro acc s
    simp [sumSAt]
  | cons pa rest ih =>
    intro acc s
    rw [List.foldl_cons]
    have hw0 : 0 ≤ actionWeight a pa := hw pa (List.mem_cons_self _ _)
    have hw' : ∀ x ∈ rest, 0 ≤ actionWeight a x :=
      fun x hx => hw x (List.mem_cons_of_mem _ hx)
    have hsum : sumSAt a s (pa :: rest) =
        (if pa.2 = s then actionWeight a pa else 0) + sumSAt a s rest := by
      unfold sumSAt
      rw [List.map_cons, List.sum_cons]
    rw [hsum]
    have hw0ite : 0 ≤ (if pa.2 = s then actionWeight a pa else 0) := by
      split
      · exact hw0
      · exact le_refl 0
    have hstep : mapSumAt (reconStep a startSem acc pa).1 s ≤
        mapSumAt acc.1 s + (if pa.2 = s then actionWeight a pa else 0) := by
      obtain ⟨act, semAt⟩ := pa
      cases act with
      | advance =>
        show mapSumAt acc.1 s ≤ _
        omega
      | add code =>
        show mapSumAt
          (if semAt < startSem ∨ 7 < semAt then acc
           else if acc.2.contains code then acc
           else
             match courseByCode a.courses code with
             | none => acc
             | some course => (appendAt acc.1 semAt course, acc.2 ++ [code])).1 s ≤ _
        split
        · omega
        · split
          · omega
          · cases hcbc : courseByCode a.courses code with
            | none =>
              show mapSumAt acc.1 s ≤ _
              omega
            | some course =>
              show mapSumAt (appendAt acc.1 semAt course) s ≤ _
              have hwc : 0 ≤ pySks course := by
                have heq : actionWeight a (PAction.add code, semAt) = pySks course := by
                  show (courseByCode a.courses code).elim 0 pySks = pySks course
                  rw [hcbc]
                  rfl
                rw [heq] at hw0
                exact hw0
              have hb := mapSumAt_appendAt acc.1 semAt s course hwc
              have heq2 : (if s = semAt then pySks course else 0) =
                  (if (PAction.add code, semAt).2 = s then
                    actionWeight a (PAction.add code, semAt) else 0) := by
                have heq : actionWeight a (PAction.add code, semAt) = pySks course := by
                  show (courseByCode a.courses code).elim 0 pySks = pySks course
                  rw [hcbc]
                  rfl
                rw [heq]
                by_cases hss : s = semAt
                · rw [if_pos hss, if_pos (by omega)]
                · rw [if_neg hss, if_neg (by omega)]
              rw [heq2] at hb
              exact hb
    have hrest := ih hw' (reconStep a startSem acc pa) s
    omega

/-- C2: for every input whose non-empty course codes are pairwise distinct
(the knowledge-store uniqueness invariant of the JSON data), every term entry
of the planner's returned schedule has a total credit weight (SKS) that does
not exceed that term's per-term credit cap. -/
theorem c2_per_term_credit_cap (a : PlanArgs)
    (hU : ((a.courses.filter (fun c => c.course_code != "")).map
      Course.course_code).Nodup) :
    ∀ e ∈ (planUntilGraduationAstar a).schedule, e.sks ≤ capOfA a e.semester := by
  intro e he
  have hinv : InvCF a (runSearch a).cameFrom := invCF_runSearch a hU
  have hb := composeSchedule_entry a
    (buildScheduleMap a (chainActions (runSearch a).cameFrom
      (runSearch a).cameFrom.length (selectBest a (runSearch a).gCost))) e he
  have hsk : e.sks = mapSumAt
      (buildScheduleMap a (chainActions (runSearch a).cameFrom
        (runSearch a).cameFrom.length (selectBest a (runSearch a).gCost)))
      e.semester := hb.2.2.2
  have hcap := chain_le_cap a (runSearch a).cameFrom hinv
    (runSearch a).cameFrom.length (selectBest a (runSearch a).gCost) e.semester
  have hwts : ∀ pa ∈ chainActions (runSearch a).cameFrom
      (runSearch a).cameFrom.length (selectBest a (runSearch a).gCost),
      0 ≤ actionWeight a pa :=
    chain_weight_nonneg a (runSearch a).cameFrom hinv
      (runSearch a).cameFrom.length (selectBest a (runSearch a).gCost)
  have hbs : mapSumAt
      (buildScheduleMap a (chainActions (runSearch a).cameFrom
        (runSearch a).cameFrom.length (selectBest a (runSearch a).gCost)))
      e.semester ≤
      mapSumAt ((List.range' (a.current_semester + 1)
        (8 - (a.current_semester + 1))).map (fun s => (s, ([] : List Course))))
        e.semester +
      sumSAt a e.semester (chainActions (runSearch a).cameFrom
        (runSearch a).cameFrom.length (selectBest a (runSearch a).gCost)) :=
    recon_bound a (a.current_semester + 1)
      (chainActions (runSearch a).cameFrom (runSearch a).cameFrom.length
        (selectBest a (runSearch a).gCost)) hwts
      (((List.range' (a.current_semester + 1)
          (8 - (a.current_semester + 1))).map
        (fun s => (s, ([] : List Course)))), ([] : List String)) e.semester
  have hinit := mapSumAt_init
    (List.range' (a.current_semester + 1) (8 - (a.current_semester + 1)))
    e.semester
  rw [hinit] at hbs
  rw [hsk]
  omega

/-- C2 witness: the credit-cap bound evaluated for the first schedule entry of
a concrete planner run. -/
theorem c2_per_term_credit_cap_witness :
    ((planArgsFree.courses.filter (fun c => c.course_code != "")).map
      Course.course_code).Nodup ∧
    ((planUntilGraduationAstar planArgsFree).schedule.headD
      defaultScheduleEntry).sks ≤
      capOfA planArgsFree
        ((planUntilGraduationAstar planArgsFree).schedule.headD
          defaultScheduleEntry).semester :=
  ⟨by decide, c2_per_term_credit_cap planArgsFree (by decide) _ (by decide)⟩
